import Mathlib

/-!
Verification of the scholarly-identifiers recognition/normalization engine
(crate `scholarly_identifiers`): the ordered-precedence dispatcher, the
per-kind recognizers (DOI, ORCID, ROR, ISBN), the generic-URI fallback, and
the stable-string codec.

Rust strings are modelled as lists of Unicode scalar values (`List Nat`);
`str` converts a Lean string literal to this representation.  Case mapping
is modelled at the ASCII level (the identifier syntaxes under study are
ASCII-only; Rust's full Unicode case mapping agrees with it there).

The crate's general-purpose URI parser (`http::Uri`) is an external
dependency, specified by the repository only as a black box that yields
structured scheme/host/path components or fails; it is modelled below in
the namespace `httpuri`.
-/

set_option maxRecDepth 10000

/-- Scalar value of a character literal. -/
def ch (c : Char) : Nat := c.toNat

/-- A Rust string as its list of Unicode scalar values. -/
def str (s : String) : List Nat := s.toList.map Char.toNat

/-- A character list is a valid Rust string: every element is a Unicode
scalar value (no surrogates, within range).  Rust's type system enforces
this on every `String`/`str`; it is an explicit hypothesis here. -/
def ValidStr (s : List Nat) : Prop :=
  ∀ c ∈ s, c < 0xD800 ∨ (0xE000 ≤ c ∧ c < 0x110000)

instance : DecidablePred ValidStr := fun s =>
  inferInstanceAs (Decidable (∀ c ∈ s, _ ∨ _))

/-- ASCII decimal digit. -/
def isDigitN (n : Nat) : Bool := 48 ≤ n && n ≤ 57

/-- ASCII upper-case letter. -/
def isUpperN (n : Nat) : Bool := 65 ≤ n && n ≤ 90

/-- ASCII lower-case letter. -/
def isLowerN (n : Nat) : Bool := 97 ≤ n && n ≤ 122

/-- ASCII letter. -/
def isAlphaN (n : Nat) : Bool := isUpperN n || isLowerN n

/-- ASCII lower-casing of one scalar value (model of Rust `to_lowercase`). -/
def lowerN (n : Nat) : Nat := if isUpperN n then n + 32 else n

/-- ASCII upper-casing of one scalar value (model of Rust `to_uppercase`). -/
def upperN (n : Nat) : Nat := if isLowerN n then n - 32 else n

/-- Model of Rust `str::to_lowercase`. -/
def toLowercase (s : List Nat) : List Nat := s.map lowerN

/-- Model of Rust `str::to_uppercase`. -/
def toUppercase (s : List Nat) : List Nat := s.map upperN

/-- Strip a literal pattern from the front of a string, returning the rest
(model of an anchored regex alternative / `str::strip_prefix`). -/
def dropLit : List Nat → List Nat → Option (List Nat)
  | [], s => some s
  | _ :: _, [] => none
  | p :: ps, c :: cs => if p = c then dropLit ps cs else none

theorem dropLit_append (p s : List Nat) : dropLit p (p ++ s) = some s := by
  induction p with
  | nil => rfl
  | cons a p ih => simp [dropLit, ih]

theorem dropLit_eq_some {p s r : List Nat} (h : dropLit p s = some r) :
    s = p ++ r := by
  induction p generalizing s with
  | nil => simpa [dropLit] using h
  | cons a p ih =>
    match s with
    | [] => simp [dropLit] at h
    | c :: cs =>
      by_cases hac : a = c
      · subst hac
        simp only [dropLit, if_pos rfl] at h
        simpa using ih h
      · simp [dropLit, hac] at h

theorem isUpperN_iff {n : Nat} : isUpperN n = true ↔ (65 ≤ n ∧ n ≤ 90) := by
  simp [isUpperN]

theorem isLowerN_iff {n : Nat} : isLowerN n = true ↔ (97 ≤ n ∧ n ≤ 122) := by
  simp [isLowerN]

theorem isDigitN_iff {n : Nat} : isDigitN n = true ↔ (48 ≤ n ∧ n ≤ 57) := by
  simp [isDigitN]

/-- lower-casing is idempotent. -/
theorem lowerN_idem (n : Nat) : lowerN (lowerN n) = lowerN n := by
  by_cases h : isUpperN n = true
  · have h' := isUpperN_iff.mp h
    have h2 : ¬ isUpperN (n + 32) = true := by
      rw [isUpperN_iff]; omega
    simp [lowerN, h, h2]
  · simp [lowerN, h]

theorem toLowercase_idem (s : List Nat) :
    toLowercase (toLowercase s) = toLowercase s := by
  simp [toLowercase, Function.comp, lowerN_idem]

theorem toLowercase_append (a b : List Nat) :
    toLowercase (a ++ b) = toLowercase a ++ toLowercase b := by
  simp [toLowercase]

theorem toUppercase_append (a b : List Nat) :
    toUppercase (a ++ b) = toUppercase a ++ toUppercase b := by
  simp [toUppercase]

/-! ## Model of the external URI parser (`http::Uri`)

Modelled from the spec: the underlying general-purpose URI syntax parser
(RFC 3986 grammar: scheme, host, path, query) is an external collaborator,
"treated as a black box that yields structured scheme/host/path components
or fails".  The model accepts three surface forms, as `http::Uri` does:
origin-form (a path starting with a slash), a full URI
(scheme "://" authority path-and-query), and authority-form (a scheme-less
string entirely made of authority characters, e.g. a bare token); any input
whose characters fall outside the RFC 3986 sets (spaces, unencoded
non-ASCII, ...) fails to parse.  The decomposition is lossless: rendering
a parsed URI reproduces the input string. -/

namespace httpuri

/-- RFC 3986 unreserved character. -/
def isUnreserved (n : Nat) : Bool :=
  isAlphaN n || isDigitN n || n = ch '-' || n = ch '.' || n = ch '_' || n = ch '~'

/-- RFC 3986 sub-delims. -/
def isSubDelim (n : Nat) : Bool :=
  n = ch '!' || n = ch '$' || n = ch '&' || n = ch '\'' || n = ch '(' ||
  n = ch ')' || n = ch '*' || n = ch '+' || n = ch ',' || n = ch ';' || n = ch '='

/-- RFC 3986 pchar (with `%` admitted as the head of a percent escape). -/
def isPchar (n : Nat) : Bool :=
  isUnreserved n || isSubDelim n || n = ch ':' || n = ch '@' || n = ch '%'

/-- Characters admitted in an authority component. -/
def isAuthChar (n : Nat) : Bool := isPchar n

/-- Characters admitted in a path-and-query component ('?' starts the query). -/
def isPathqChar (n : Nat) : Bool := isPchar n || n = ch '/' || n = ch '?'

/-- Characters admitted in a scheme (after the leading letter). -/
def isSchemeChar (n : Nat) : Bool :=
  isAlphaN n || isDigitN n || n = ch '+' || n = ch '-' || n = ch '.'

/-- The structured result of a URI parse: scheme, authority and the
path-and-query, each kept verbatim. -/
structure Uri where
  scheme : Option (List Nat)
  authority : Option (List Nat)
  pathq : List Nat
deriving DecidableEq, Repr

/-- Split a full URI at the literal "://" following the scheme. -/
def splitSchemeSep (s : List Nat) : Option (List Nat × List Nat) :=
  let sch := s.takeWhile (fun c => c ≠ ch ':')
  match dropLit (str "://") (s.drop sch.length) with
  | some rest => some (sch, rest)
  | none => none

/-- Parse a string as a URI, or fail. -/
def uriParse (s : List Nat) : Option Uri :=
  match s with
  | [] => none
  | c :: _ =>
    if c = ch '/' then
      -- origin-form: path-and-query only
      if s.all isPathqChar then some ⟨none, none, s⟩ else none
    else
      match splitSchemeSep s with
      | some (sch, rest) =>
        let auth := rest.takeWhile (fun c => c ≠ ch '/' && c ≠ ch '?')
        let pq := rest.drop auth.length
        if sch ≠ [] && sch.all isSchemeChar && isAlphaN sch.headI &&
           auth ≠ [] && auth.all isAuthChar && pq.all isPathqChar then
          some ⟨some sch, some auth, pq⟩
        else none
      | none =>
        -- authority-form: a scheme-less string of authority characters
        if s.all isAuthChar then some ⟨none, some s, []⟩ else none

/-- Render a parsed URI back to a string (model of `http::Uri::to_string`). -/
def uriToString (u : Uri) : List Nat :=
  (match u.scheme with
   | some sch => sch ++ str "://"
   | none => []) ++
  (match u.authority with
   | some a => a
   | none => []) ++ u.pathq

/-- The host of the URI: the authority with any userinfo (up to the first
'@') and any port (from the first ':' of the remainder) removed. -/
def host (u : Uri) : Option (List Nat) :=
  match u.authority with
  | none => none
  | some a =>
    let afterUser := if a.contains (ch '@') then (a.dropWhile (fun c => c ≠ ch '@')).tail else a
    some (afterUser.takeWhile (fun c => c ≠ ch ':'))

/-- The path of the URI: path-and-query up to the first '?'. -/
def path (u : Uri) : List Nat := u.pathq.takeWhile (fun c => c ≠ ch '?')

end httpuri

theorem takeWhile_len_drop {α} (p : α → Bool) (l : List α) :
    l.takeWhile p ++ l.drop (l.takeWhile p).length = l := by
  induction l with
  | nil => rfl
  | cons a l ih =>
    by_cases h : p a
    · simp [List.takeWhile_cons, h, ih]
    · simp [List.takeWhile_cons, h]

theorem takeWhile_append_all {α} (p : α → Bool) {a b : List α}
    (ha : ∀ c ∈ a, p c = true)
    (hb : match b with | [] => True | c :: _ => p c = false) :
    (a ++ b).takeWhile p = a := by
  induction a with
  | nil =>
    match b with
    | [] => rfl
    | c :: cs => simp_all [List.takeWhile_cons]
  | cons x xs ih =>
    have hx : p x = true := ha x (by simp)
    simp only [List.cons_append, List.takeWhile_cons, hx, if_true]
    rw [ih (fun c hc => ha c (by simp [hc]))]

namespace httpuri

/-- The URI model is lossless: rendering a successfully parsed URI
reproduces the input exactly. -/
theorem uriToString_uriParse {s : List Nat} {u : Uri}
    (h : uriParse s = some u) : uriToString u = s := by
  match s with
  | [] => simp [uriParse] at h
  | c :: cs =>
    simp only [uriParse] at h
    by_cases hc : c = ch '/'
    · simp only [hc, if_true] at h
      split at h
      · cases h
        simp [uriToString, hc]
      · exact Option.noConfusion h
    · simp only [hc, if_false] at h
      match hsp : splitSchemeSep (c :: cs) with
      | some (sch, rest) =>
        simp only [hsp] at h
        split at h
        · cases h
          have hdecomp : c :: cs = sch ++ (str "://" ++ rest) := by
            have h1 : (c :: cs).takeWhile (fun x => x ≠ ch ':') ++
                (c :: cs).drop (((c :: cs).takeWhile (fun x => x ≠ ch ':')).length) = c :: cs :=
              takeWhile_len_drop _ _
            simp only [splitSchemeSep] at hsp
            split at hsp <;> rename_i heq
            · cases hsp
              rw [← dropLit_eq_some heq, h1]
            · cases hsp
          simp only [uriToString]
          rw [hdecomp]
          simp only [List.append_assoc]
          rw [takeWhile_len_drop]
        · exact Option.noConfusion h
      | none =>
        simp only [hsp] at h
        split at h
        · cases h
          simp [uriToString]
        · exact Option.noConfusion h

end httpuri

/-! ## Data model (`src/identifiers.rs`) -/

/-- A Scholarly Identifier (the Rust enum `Identifier`).  The Rust variant
`Identifier::String` is rendered `Identifier.Str` here; the DOI fields
`prefix`/`suffix` are rendered `pre`/`suf`. -/
inductive Identifier where
  /-- DOI, split into prefix (e.g. "10.5555") and suffix; native Unicode,
  not URL-encoded. -/
  | Doi (pre suf : List Nat)
  /-- ORCID iD, raw identifier without the link resolver. -/
  | Orcid (value : List Nat)
  /-- ROR id, raw identifier without the link resolver. -/
  | Ror (value : List Nat)
  /-- A valid URI, used only when other types are not recognised. -/
  | Uri (value : List Nat)
  /-- The fall-through case (Rust `Identifier::String`). -/
  | Str (value : List Nat)
  /-- ISBN, always in the 13-digit form. -/
  | Isbn (value : List Nat)
deriving DecidableEq, Repr

/-- Intermediary representation of an input with pre-computed values
(the Rust struct `IdentifierParseInput`). -/
structure IdentifierParseInput where
  raw : List Nat
  uri : Option httpuri.Uri
deriving DecidableEq, Repr

namespace IdentifierParseInput

def build (input : List Nat) : IdentifierParseInput :=
  ⟨input, httpuri.uriParse input⟩

/-- Return the path with the leading slash removed. -/
def path_no_slash (i : IdentifierParseInput) : Option (List Nat) :=
  match i.uri with
  | some u =>
    let p := httpuri.path u
    some (match dropLit (str "/") p with
          | some rest => rest
          | none => p)
  | none => none

def path_no_slash_uppercase (i : IdentifierParseInput) : Option (List Nat) :=
  i.path_no_slash.map toUppercase

def host (i : IdentifierParseInput) : Option (List Nat) :=
  match i.uri with
  | some u => httpuri.host u
  | none => none

def host_lowercase (i : IdentifierParseInput) : Option (List Nat) :=
  i.host.map toLowercase

end IdentifierParseInput

/-! ## UTF-8 and percent-coding (for the DOI recognizer)

The Rust code moves between `String` (Unicode scalar values) and UTF-8
bytes when percent-decoding (`percent_encoding::percent_decode(..)
.decode_utf8()`); the byte level is modelled explicitly. -/

/-- UTF-8 encoding of one Unicode scalar value. -/
def utf8EncodeChar (n : Nat) : List Nat :=
  if n < 0x80 then [n]
  else if n < 0x800 then [0xC0 + n / 64, 0x80 + n % 64]
  else if n < 0x10000 then
    [0xE0 + n / 4096, 0x80 + (n / 64) % 64, 0x80 + n % 64]
  else
    [0xF0 + n / 262144, 0x80 + (n / 4096) % 64, 0x80 + (n / 64) % 64, 0x80 + n % 64]

/-- UTF-8 encoding of a string. -/
def utf8Encode (s : List Nat) : List Nat := (s.map utf8EncodeChar).flatten

/-- A UTF-8 continuation byte. -/
def isCont (b : Nat) : Bool := 0x80 ≤ b && b < 0xC0

/-- One step of strict UTF-8 decoding, fuelled to keep the recursion
structural: `fuel` bounds the number of characters still to be produced.
A lead byte announces how many continuation bytes follow (read via
`headI`/`drop`, guarded by a length check). -/
def utf8DecodeGo : Nat → List Nat → Option (List Nat)
  | _, [] => some []
  | 0, _ :: _ => none
  | fuel + 1, b :: rest =>
    if b < 0x80 then (utf8DecodeGo fuel rest).map (b :: ·)
    else if 0xC2 ≤ b && b ≤ 0xDF then
      if 1 ≤ rest.length && isCont rest.headI then
        (utf8DecodeGo fuel (rest.drop 1)).map (((b - 0xC0) * 64 + (rest.headI - 0x80)) :: ·)
      else none
    else if 0xE0 ≤ b && b ≤ 0xEF then
      let b2 := rest.headI
      let b3 := (rest.drop 1).headI
      let n := (b - 0xE0) * 4096 + (b2 - 0x80) * 64 + (b3 - 0x80)
      if 2 ≤ rest.length && isCont b2 && isCont b3 && 0x800 ≤ n &&
         ¬ (0xD800 ≤ n && n ≤ 0xDFFF) then
        (utf8DecodeGo fuel (rest.drop 2)).map (n :: ·)
      else none
    else if 0xF0 ≤ b && b ≤ 0xF4 then
      let b2 := rest.headI
      let b3 := (rest.drop 1).headI
      let b4 := (rest.drop 2).headI
      let n := (b - 0xF0) * 262144 + (b2 - 0x80) * 4096 + (b3 - 0x80) * 64 + (b4 - 0x80)
      if 3 ≤ rest.length && isCont b2 && isCont b3 && isCont b4 &&
         0x10000 ≤ n && n ≤ 0x10FFFF then
        (utf8DecodeGo fuel (rest.drop 3)).map (n :: ·)
      else none
    else none

/-- Strict UTF-8 decoding (model of `str::from_utf8`): rejects overlong
forms, surrogates and out-of-range values, as Rust does. -/
def utf8Decode (bs : List Nat) : Option (List Nat) := utf8DecodeGo bs.length bs

/-- Value of one hex digit byte, upper or lower case. -/
def hexVal (n : Nat) : Option Nat :=
  if 48 ≤ n && n ≤ 57 then some (n - 48)
  else if 65 ≤ n && n ≤ 70 then some (n - 55)
  else if 97 ≤ n && n ≤ 102 then some (n - 87)
  else none

/-- Model of `percent_encoding::percent_decode` over bytes: each '%'
followed by two hex digits becomes the denoted byte; a '%' not followed by
two hex digits is passed through unchanged. -/
def percentDecodeBytes : List Nat → List Nat
  | [] => []
  | b :: rest =>
    if b = 37 then
      match rest with
      | h1 :: h2 :: rest2 =>
        match hexVal h1, hexVal h2 with
        | some hi, some lo => (hi * 16 + lo) :: percentDecodeBytes rest2
        | _, _ => 37 :: percentDecodeBytes (h1 :: h2 :: rest2)
      | [h1] => 37 :: percentDecodeBytes [h1]
      | [] => [37]
    else b :: percentDecodeBytes rest

/-- Upper-case hex digit of a value below 16 (Rust `write!("%{:02X}")`). -/
def hexDigit (n : Nat) : Nat := if n < 10 then 48 + n else 55 + n

/-! ## DOI recognizer/encoder (`src/doi.rs`) -/

namespace doi

/-- From RFC 3986 section 2.3 Unreserved Characters. -/
def UNRESERVED_CHARACTERS (n : Nat) : Bool :=
  isAlphaN n || isDigitN n || n = ch '-' || n = ch '_' || n = ch '.' || n = ch '~'

/-- From RFC 3986 section 2.2 Reserved Characters (the crate's list). -/
def RESERVED_CHARACTERS (n : Nat) : Bool :=
  n = ch '!' || n = ch '$' || n = ch '&' || n = ch '\'' || n = ch '(' ||
  n = ch ')' || n = ch '*' || n = ch ',' || n = ch '/' || n = ch ':' ||
  n = ch ';' || n = ch '=' || n = ch '@'

/-- These characters should not be encoded in a DOI.  All others must be. -/
def DO_NOT_ENCODE (n : Nat) : Bool := UNRESERVED_CHARACTERS n || RESERVED_CHARACTERS n

/-- Percent-encode characters according to the specific rules for DOI
encoding (each non-exempt character's UTF-8 bytes as "%XX", upper hex). -/
def percent_encode_for_doi (input : List Nat) : List Nat :=
  (input.map (fun c =>
    if DO_NOT_ENCODE c then [c]
    else ((utf8EncodeChar c).map
      (fun b => [ch '%', hexDigit (b / 16), hexDigit (b % 16)])).flatten)).flatten

/-- Match of `URI_PREFIXES_SCHEME`, regex
"^(https://|http://|doi:|urn:doi:|info:doi:)": the alternatives in order. -/
def URI_PREFIXES_SCHEME : List (List Nat) :=
  [str "https://", str "http://", str "doi:", str "urn:doi:", str "info:doi:"]

/-- `Regex::replace(input, "")` for an anchored prefix alternation: strip
the first alternative that matches, else leave the input unchanged. -/
def stripFirstAlt : List (List Nat) → List Nat → List Nat
  | [], s => s
  | p :: ps, s =>
    match dropLit p s with
    | some rest => rest
    | none => stripFirstAlt ps s

/-- One pattern character of `URI_PREFIXES_HOST`: a literal, or the
regex '.' wildcard (any character except a newline). -/
inductive PatChar where
  | lit (n : Nat)
  | any
deriving DecidableEq, Repr

/-- Anchored match of a pattern with wildcards, returning the rest. -/
def dropPat : List PatChar → List Nat → Option (List Nat)
  | [], s => some s
  | _ :: _, [] => none
  | PatChar.lit a :: ps, c :: cs => if a = c then dropPat ps cs else none
  | PatChar.any :: ps, c :: cs => if c = 10 then none else dropPat ps cs

/-- A host-prefix regex alternative, with '.' as a wildcard (the regex
source "dx.doi.org/" and "doi.org/" leave the dots unescaped). -/
def hostPat (s : String) : List PatChar :=
  (str s).map (fun c => if c = ch '.' then PatChar.any else PatChar.lit c)

/-- Match of `URI_PREFIXES_HOST`, regex "^(dx.doi.org/|doi.org/)". -/
def URI_PREFIXES_HOST : List (List PatChar) :=
  [hostPat "dx.doi.org/", hostPat "doi.org/"]

/-- Strip the first matching host-prefix alternative. -/
def stripFirstHostAlt : List (List PatChar) → List Nat → List Nat
  | [], s => s
  | p :: ps, s =>
    match dropPat p s with
    | some rest => rest
    | none => stripFirstHostAlt ps s

/-- Capture groups of `DOI_STRICT_RE`, regex "^(10\.\d+)/(.+)$": the
prefix "10." plus at least one digit, a slash, and a non-empty suffix that
may not contain a newline (regex '.' excludes the newline) and runs to the
end of the string. -/
def doiStrictCapture (s : List Nat) : Option (List Nat × List Nat) :=
  match s with
  | c1 :: c0 :: cd :: rest =>
    if c1 = ch '1' && c0 = ch '0' && cd = ch '.' then
      let ds := rest.takeWhile isDigitN
      match rest.drop ds.length with
      | sl :: suf =>
        if sl = ch '/' && ds ≠ [] && suf ≠ [] && ¬ suf.contains 10 then
          some (c1 :: c0 :: cd :: ds, suf)
        else none
      | [] => none
    else none
  | _ => none

/-- Match of `DOI_RE`, regex "^10\.\d+(/|%2f).*": "10.", at least one
digit, then a slash or the encoded slash "%2f". -/
def doiReMatch (s : List Nat) : Bool :=
  match s with
  | c1 :: c0 :: cd :: rest =>
    c1 = ch '1' && c0 = ch '0' && cd = ch '.' &&
    (let ds := rest.takeWhile isDigitN
     ds ≠ [] &&
     (let r2 := rest.drop ds.length
      r2.headI = ch '/' && r2 ≠ [] || (dropLit (str "%2f") r2).isSome))
  | _ => false

/-- Construct an Identifier containing a Unicode-native string
(the Rust `construct`). -/
def construct (decoded_raw_doi : List Nat) : Option Identifier :=
  match doiStrictCapture decoded_raw_doi with
  | some (p, suf) => some (Identifier.Doi p (toLowercase suf))
  | none => none

/-- Remove the string prefixes for DOIs (the Rust `remove_doi_prefixes`):
leading scheme, then leading resolver host, then scheme again. -/
def remove_doi_prefixes (input : List Nat) : List Nat :=
  let no_scheme := stripFirstAlt URI_PREFIXES_SCHEME input
  let no_resolver := stripFirstHostAlt URI_PREFIXES_HOST no_scheme
  stripFirstAlt URI_PREFIXES_SCHEME no_resolver

/-- Parse an input string as a DOI, if recognised as a DOI
(the Rust `doi::try_parse`). -/
def try_parse (input : IdentifierParseInput) : Option Identifier :=
  let lowercase := toLowercase input.raw
  if (doiStrictCapture lowercase).isSome then
    construct lowercase
  else
    let less_prefixes := remove_doi_prefixes lowercase
    if doiReMatch less_prefixes then
      match utf8Decode (percentDecodeBytes (utf8Encode less_prefixes)) with
      | some decoded => construct decoded
      | none => none
    else none

/-- Encode a DOI per the DOI handbook rules (the Rust `doi::to_uri`). -/
def to_uri (input : Identifier) : Option (List Nat) :=
  match input with
  | Identifier.Doi p suf =>
    some (str "https://doi.org/" ++ p ++ [ch '/'] ++ percent_encode_for_doi suf)
  | _ => none

/-- Modelled from the spec: `doi::to_stable_string` is called from
`identifiers.rs` but missing from the provided sources; per spec §4.3
"Stable string: identical to the URI form (DOI's canonical persisted form
IS its resolver URL)". -/
def to_stable_string (input : Identifier) : Option (List Nat) := to_uri input

end doi

/-! ## ORCID recognizer (`src/orcid.rs`) -/

namespace orcid

/-- Host expressed to avoid multiple case conversions. -/
def HOST : List Nat := str "orcid.org"

/-- Capture of `ORCID_RE`, regex
"^(\d{4})-(\d{4})-(\d{4})-(\d{3})([\dX])$": the 15 base digits
(groups 1-4 concatenated) and the check character (group 5). -/
def orcidCapture (s : List Nat) : Option (List Nat × Nat) :=
  match s with
  | [a1, a2, a3, a4, h1, b1, b2, b3, b4, h2, c1, c2, c3, c4, h3, d1, d2, d3, e] =>
    if [a1, a2, a3, a4, b1, b2, b3, b4, c1, c2, c3, c4, d1, d2, d3].all isDigitN &&
       h1 = ch '-' && h2 = ch '-' && h3 = ch '-' && (isDigitN e || e = ch 'X') then
      some ([a1, a2, a3, a4, b1, b2, b3, b4, c1, c2, c3, c4, d1, d2, d3], e)
    else none
  | _ => none

/-- The running total of `generate_check_digit`: at each digit,
`total = (total + value) * 2`; a non-digit aborts with `none`. -/
def checkTotal : List Nat → Nat → Option Nat
  | [], t => some t
  | c :: rest, t =>
    if isDigitN c then checkTotal rest ((t + (c - 48)) * 2) else none

/-- Generate check digit for an ORCID iD (the Rust `generate_check_digit`):
check = (12 - (total mod 11)) mod 11, rendered "X" when 10. -/
def generate_check_digit (base_digits : List Nat) : Option (List Nat) :=
  match checkTotal base_digits 0 with
  | some total =>
    let remainder := total % 11
    let result := (12 - remainder) % 11
    some (if result = 10 then [ch 'X'] else [48 + result])
  | none => none

/-- The Rust `validate_check_digit`. -/
def validate_check_digit (orcid_id : List Nat) : Bool :=
  match orcidCapture orcid_id with
  | some (digits, check) => generate_check_digit digits = some [check]
  | none => false

/-- Parse an input string as an ORCID iD (the Rust `orcid::try_parse`). -/
def try_parse (input : IdentifierParseInput) : Option Identifier :=
  match input.path_no_slash_uppercase with
  | some path =>
    match input.host_lowercase with
    | some x =>
      if x = HOST then
        if validate_check_digit path then some (Identifier.Orcid path) else none
      else none
    | none => none
  | none => none

/-- Encode an ORCID iD as a URI (the Rust `orcid::to_uri`). -/
def to_uri (input : Identifier) : Option (List Nat) :=
  match input with
  | Identifier.Orcid value => some (str "https://orcid.org/" ++ value)
  | _ => none

/-- The Rust `orcid::to_stable_string` (defined as `to_uri`). -/
def to_stable_string (input : Identifier) : Option (List Nat) := to_uri input

end orcid

/-! ## ROR recognizer (`src/ror.rs`) -/

namespace ror

def HOST : List Nat := str "ror.org"

/-- Membership of the class `[a-hj-km-np-tv-z|0-9]` of `PATH_RE` (note:
the source's character class contains a literal '|'). -/
def isRorClassChar (n : Nat) : Bool :=
  (ch 'a' ≤ n && n ≤ ch 'h') || (ch 'j' ≤ n && n ≤ ch 'k') ||
  (ch 'm' ≤ n && n ≤ ch 'n') || (ch 'p' ≤ n && n ≤ ch 't') ||
  (ch 'v' ≤ n && n ≤ ch 'z') || n = ch '|' || isDigitN n

/-- Capture of `PATH_RE`, regex "^(0[a-hj-km-np-tv-z|0-9]{6})([0-9]{2})$":
group 1 is the identifier, group 2 the checksum digits. -/
def rorCapture (s : List Nat) : Option (List Nat × (Nat × Nat)) :=
  match s with
  | [z, c1, c2, c3, c4, c5, c6, k1, k2] =>
    if z = ch '0' && [c1, c2, c3, c4, c5, c6].all isRorClassChar &&
       isDigitN k1 && isDigitN k2 then
      some ([z, c1, c2, c3, c4, c5, c6], (k1, k2))
    else none
  | _ => none

/-- Crockford base-32 value of a character; unrecognized characters decode
to 0 (the Rust `BASE_32_DECODE.get(..).unwrap_or(&0)`). -/
def base32Val (n : Nat) : Nat :=
  if 48 ≤ n && n ≤ 57 then n - 48          -- '0'..'9'
  else if 97 ≤ n && n ≤ 104 then n - 87    -- 'a'..'h'
  else if 106 ≤ n && n ≤ 107 then n - 88   -- 'j','k'
  else if 109 ≤ n && n ≤ 110 then n - 89   -- 'm','n'
  else if 112 ≤ n && n ≤ 116 then n - 90   -- 'p'..'t'
  else if 118 ≤ n && n ≤ 122 then n - 91   -- 'v'..'z'
  else 0

/-- Generate the check digit (the Rust `expected_check_digit`). -/
def expected_check_digit (identifier : List Nat) : Nat :=
  let parsed := identifier.foldl (fun acc c => acc * 32 + base32Val c) 0
  98 - ((parsed * 100) % 97)

/-- The Rust `ror::validate_check_digit`. -/
def validate_check_digit (path : List Nat) : Bool :=
  match rorCapture path with
  | some (identifier, (k1, k2)) =>
    expected_check_digit identifier = (k1 - 48) * 10 + (k2 - 48)
  | none => false

/-- Parse an input string as a ROR id (the Rust `ror::try_parse`). -/
def try_parse (input : IdentifierParseInput) : Option Identifier :=
  match input.host_lowercase with
  | some host =>
    if host = HOST then
      match input.path_no_slash with
      | some path =>
        if validate_check_digit path then some (Identifier.Ror path) else none
      | none => none
    else none
  | none => none

/-- The Rust `ror::to_uri`. -/
def to_uri (input : Identifier) : Option (List Nat) :=
  match input with
  | Identifier.Ror value => some (str "https://ror.org/" ++ value)
  | _ => none

/-- Modelled from the spec: `ror::to_stable_string` is called from
`identifiers.rs` but missing from the provided sources; per spec §4.6
"Stable string/URI form: https://ror.org/<code>". -/
def to_stable_string (input : Identifier) : Option (List Nat) := to_uri input

end ror

/-! ## ISBN recognizer (`src/isbn.rs`) -/

namespace isbn

/-- Weights of the numbers 0 to 9 for 10-digit validation. -/
def TEN_DIGIT_WEIGHTS : List Nat := [10, 9, 8, 7, 6, 5, 4, 3, 2, 1]

/-- Weights of the numbers 0 to 12 for 13-digit validation. -/
def THIRTEEN_DIGIT_WEIGHTS : List Nat := [1, 3, 1, 3, 1, 3, 1, 3, 1, 3, 1, 3, 1]

/-- Return the digit values for a 10 or 13 sized ISBN; `none` on any
character outside digits, 'X', 'x', space and hyphen
(the Rust `str_to_digits`). -/
def str_to_digits (input : List Nat) : Option (List Nat) :=
  if input.any (fun c => ¬ (isDigitN c || c = ch 'X' || c = ch 'x' ||
                            c = ch ' ' || c = ch '-')) then none
  else some (input.filterMap (fun c =>
    if isDigitN c then some (c - 48)
    else if c = ch 'X' || c = ch 'x' then some 10
    else none))

/-- The Rust `digits_to_str`: 0-9 as digits, 10 as 'X', others dropped. -/
def digits_to_str (input : List Nat) : List Nat :=
  input.filterMap (fun d =>
    if d ≤ 9 then some (48 + d) else if d = 10 then some (ch 'X') else none)

/-- Generate checksum for a 10 digit ISBN over the first 9 digits
(the Rust `generate_10_digit_checksum`): 11 - (sum mod 11). -/
def generate_10_digit_checksum (digits : List Nat) : Nat :=
  11 - ((List.zipWith (· * ·) (digits.take 9) (TEN_DIGIT_WEIGHTS.take 9)).sum % 11)

/-- Validate a candidate 10 digit ISBN (the Rust `validate_10_digit`). -/
def validate_10_digit (digits : List Nat) : Bool :=
  digits.length = 10 && generate_10_digit_checksum digits = digits.getD 9 0

/-- Generate a checksum for a 13 digit ISBN from the first 12 digits
(the Rust `generate_13_digit_checksum`): 10 - (sum mod 10). -/
def generate_13_digit_checksum (digits : List Nat) : Nat :=
  10 - ((List.zipWith (· * ·) (digits.take 12) (THIRTEEN_DIGIT_WEIGHTS.take 12)).sum % 10)

/-- Validate a 13 digit ISBN (the Rust `validate_13_digit`). -/
def validate_13_digit (digits : List Nat) : Bool :=
  digits.length = 13 && generate_13_digit_checksum digits = digits.getD 12 0

/-- Convert a 10 digit ISBN to 13 digits by prepending 978 and
recalculating the check digit (the Rust `ten_digit_to_thirteen_digit`). -/
def ten_digit_to_thirteen_digit (digits : List Nat) : List Nat :=
  let new_isbn := [9, 7, 8] ++ digits.take 9
  new_isbn ++ [generate_13_digit_checksum new_isbn]

/-- Try to parse a 10 or 13 digit ISBN, normalized to 13 digits
(the Rust `isbn::try_parse`). -/
def try_parse (input : IdentifierParseInput) : Option Identifier :=
  let upcase := toUppercase input.raw
  let less := match dropLit (str "URN:ISBN:") upcase with
              | some rest => rest
              | none => input.raw
  match str_to_digits less with
  | some digits =>
    if validate_10_digit digits then
      some (Identifier.Isbn (digits_to_str (ten_digit_to_thirteen_digit digits)))
    else if validate_13_digit digits then
      some (Identifier.Isbn (digits_to_str digits))
    else none
  | none => none

/-- Convert an ISBN to a URN URI (the Rust `isbn::to_uri`). -/
def to_uri (input : Identifier) : Option (List Nat) :=
  match input with
  | Identifier.Isbn value => some (str "urn:isbn:" ++ value)
  | _ => none

/-- The Rust `isbn::to_stable_string`. -/
def to_stable_string (input : Identifier) : Option (List Nat) :=
  match input with
  | Identifier.Isbn value => some value
  | _ => none

end isbn

/-! ## URI fallback recognizer (`src/uri.rs`) -/

namespace uri

/-- The Rust `uri::try_parse`: rely on the pre-computed URI. -/
def try_parse (input : IdentifierParseInput) : Option Identifier :=
  input.uri.map (fun u => Identifier.Uri (httpuri.uriToString u))

/-- The Rust `uri::to_uri`. -/
def to_uri (input : Identifier) : Option (List Nat) :=
  match input with
  | Identifier.Uri value => some value
  | _ => none

/-- The Rust `uri::to_stable_string` (defined as `to_uri`). -/
def to_stable_string (input : Identifier) : Option (List Nat) := to_uri input

end uri

/-! ## Dispatcher and stable-string codec (`src/identifiers.rs`) -/

/-- List of parsers, in order of precedence (the Rust `PARSERS`). -/
def PARSERS : List (IdentifierParseInput → Option Identifier) :=
  [doi.try_parse, orcid.try_parse, isbn.try_parse, ror.try_parse, uri.try_parse]

/-- The parser loop of `Identifier::parse`: return the first parser's
result that is not a decline. -/
def firstResult : List (IdentifierParseInput → Option Identifier) →
    IdentifierParseInput → Option Identifier
  | [], _ => none
  | p :: ps, input =>
    match p input with
    | some result => some result
    | none => firstResult ps input

namespace Identifier

/-- Parse an input string, producing an Identifier; always succeeds, with
`Identifier.Str` as the fall-back case (the Rust `Identifier::parse`). -/
def parse (input : List Nat) : Identifier :=
  let parse_input := IdentifierParseInput.build input
  match firstResult PARSERS parse_input with
  | some result => result
  | none => Identifier.Str input

/-- Convert to a URI format, if possible (the Rust `Identifier::to_uri`). -/
def to_uri (self : Identifier) : Option (List Nat) :=
  match self with
  | Doi _ _ => doi.to_uri self
  | Orcid _ => orcid.to_uri self
  | Uri value => some value
  | Str _ => none
  | Isbn _ => isbn.to_uri self
  | Ror _ => ror.to_uri self

/-- Modelled from the spec: the `format!("{:?}", self)` Debug fall-back of
`to_stable_string`/`to_id_string_pair`, reachable only on an internal
invariant violation ("must be treated as a defect, not a normal code
path"); rendered here as an opaque marker string. -/
def debugRender (_self : Identifier) : List Nat := str "<debug>"

/-- Represent as a simple, stable string representation
(the Rust `Identifier::to_stable_string`). -/
def to_stable_string (self : Identifier) : List Nat :=
  let maybe_string :=
    match self with
    | Doi _ _ => doi.to_stable_string self
    | Orcid _ => orcid.to_stable_string self
    | Uri _ => uri.to_stable_string self
    | Str value => some value
    | Isbn _ => isbn.to_stable_string self
    | Ror _ => ror.to_stable_string self
  match maybe_string with
  | some result => result
  | none => debugRender self

/-- Convert to a pair of stable string and numeric type id
(the Rust `Identifier::to_id_string_pair`). -/
def to_id_string_pair (self : Identifier) : List Nat × Nat :=
  let maybe_result :=
    match self with
    | Doi _ _ => (doi.to_stable_string self, 1)
    | Orcid _ => (orcid.to_stable_string self, 2)
    | Ror _ => (ror.to_stable_string self, 3)
    | Uri _ => (uri.to_stable_string self, 4)
    | Str value => (some value, 5)
    | Isbn _ => (isbn.to_stable_string self, 6)
  match maybe_result with
  | (some value, type_id) => (value, type_id)
  | (none, _) => (debugRender self, 5)

/-- Construct from a (string, type id) pair
(the Rust `Identifier::from_id_string_pair`). -/
def from_id_string_pair (input_str : List Nat) (type_id : Nat) : Option Identifier :=
  let parse_input := IdentifierParseInput.build input_str
  match type_id with
  | 1 => doi.try_parse parse_input
  | 2 => orcid.try_parse parse_input
  | 3 => ror.try_parse parse_input
  | 4 => uri.try_parse parse_input
  | 5 => some (Identifier.Str input_str)
  | 6 => isbn.try_parse parse_input
  | _ => none

end Identifier

/-! ## Shape lemmas: what each recognizer can return -/

theorem doi.construct_shape {x : List Nat} {id : Identifier}
    (h : doi.construct x = some id) : ∃ p suf, id = Identifier.Doi p suf := by
  unfold doi.construct at h
  split at h
  · cases h; exact ⟨_, _, rfl⟩
  · exact Option.noConfusion h

theorem doi.try_parse_doi_shape {i : IdentifierParseInput} {id : Identifier}
    (h : doi.try_parse i = some id) : ∃ p suf, id = Identifier.Doi p suf := by
  simp only [doi.try_parse] at h
  split at h
  · exact doi.construct_shape h
  · split at h
    · split at h
      · exact doi.construct_shape h
      · exact Option.noConfusion h
    · exact Option.noConfusion h

theorem orcid.try_parse_orcid_shape {i : IdentifierParseInput} {id : Identifier}
    (h : orcid.try_parse i = some id) : ∃ v, id = Identifier.Orcid v := by
  unfold orcid.try_parse at h
  split at h <;> try exact Option.noConfusion h
  split at h <;> try exact Option.noConfusion h
  split at h <;> try exact Option.noConfusion h
  split at h
  · cases h; exact ⟨_, rfl⟩
  · exact Option.noConfusion h

theorem ror.try_parse_ror_shape {i : IdentifierParseInput} {id : Identifier}
    (h : ror.try_parse i = some id) : ∃ v, id = Identifier.Ror v := by
  unfold ror.try_parse at h
  split at h <;> try exact Option.noConfusion h
  split at h <;> try exact Option.noConfusion h
  split at h <;> try exact Option.noConfusion h
  split at h
  · cases h; exact ⟨_, rfl⟩
  · exact Option.noConfusion h

theorem isbn.try_parse_isbn_shape {i : IdentifierParseInput} {id : Identifier}
    (h : isbn.try_parse i = some id) : ∃ v, id = Identifier.Isbn v := by
  simp only [isbn.try_parse] at h
  split at h <;> try exact Option.noConfusion h
  split at h
  · cases h; exact ⟨_, rfl⟩
  · split at h
    · cases h; exact ⟨_, rfl⟩
    · exact Option.noConfusion h

theorem uri.try_parse_uri_shape {i : IdentifierParseInput} {id : Identifier}
    (h : uri.try_parse i = some id) : ∃ v, id = Identifier.Uri v := by
  unfold uri.try_parse at h
  match hu : i.uri with
  | some u => rw [hu] at h; cases h; exact ⟨_, rfl⟩
  | none => rw [hu] at h; exact Option.noConfusion h

/-! ## Claims about the dispatcher and codec -/

/-- C3: `Identifier::parse` is total (a function defined on every input
string); it tries the recognizers in exactly the fixed order DOI, ORCID,
ISBN, ROR, generic-URI, returns the first recognizer's result that is not
a decline, and when every recognizer declines it returns the
`Identifier::String` (OpaqueString) variant wrapping the raw input
verbatim. -/
theorem parse_tries_recognizers_in_order (s : List Nat) :
    (∀ r, doi.try_parse (IdentifierParseInput.build s) = some r →
      Identifier.parse s = r) ∧
    (doi.try_parse (IdentifierParseInput.build s) = none →
      ∀ r, orcid.try_parse (IdentifierParseInput.build s) = some r →
        Identifier.parse s = r) ∧
    (doi.try_parse (IdentifierParseInput.build s) = none →
      orcid.try_parse (IdentifierParseInput.build s) = none →
      ∀ r, isbn.try_parse (IdentifierParseInput.build s) = some r →
        Identifier.parse s = r) ∧
    (doi.try_parse (IdentifierParseInput.build s) = none →
      orcid.try_parse (IdentifierParseInput.build s) = none →
      isbn.try_parse (IdentifierParseInput.build s) = none →
      ∀ r, ror.try_parse (IdentifierParseInput.build s) = some r →
        Identifier.parse s = r) ∧
    (doi.try_parse (IdentifierParseInput.build s) = none →
      orcid.try_parse (IdentifierParseInput.build s) = none →
      isbn.try_parse (IdentifierParseInput.build s) = none →
      ror.try_parse (IdentifierParseInput.build s) = none →
      ∀ r, uri.try_parse (IdentifierParseInput.build s) = some r →
        Identifier.parse s = r) ∧
    (doi.try_parse (IdentifierParseInput.build s) = none →
      orcid.try_parse (IdentifierParseInput.build s) = none →
      isbn.try_parse (IdentifierParseInput.build s) = none →
      ror.try_parse (IdentifierParseInput.build s) = none →
      uri.try_parse (IdentifierParseInput.build s) = none →
      Identifier.parse s = Identifier.Str s) := by
  refine ⟨?_, ?_, ?_, ?_, ?_, ?_⟩
  · intro r h
    simp [Identifier.parse, firstResult, PARSERS, h]
  · intro h1 r h
    simp [Identifier.parse, firstResult, PARSERS, h1, h]
  · intro h1 h2 r h
    simp [Identifier.parse, firstResult, PARSERS, h1, h2, h]
  · intro h1 h2 h3 r h
    simp [Identifier.parse, firstResult, PARSERS, h1, h2, h3, h]
  · intro h1 h2 h3 h4 r h
    simp [Identifier.parse, firstResult, PARSERS, h1, h2, h3, h4, h]
  · intro h1 h2 h3 h4 h5
    simp [Identifier.parse, firstResult, PARSERS, h1, h2, h3, h4, h5]

/-- Witness for C3: on "hello world" every recognizer declines and the
parse falls through to the verbatim OpaqueString. -/
theorem parse_tries_recognizers_in_order_witness :
    Identifier.parse (str "hello world") = Identifier.Str (str "hello world") :=
  (parse_tries_recognizers_in_order (str "hello world")).2.2.2.2.2
    (by decide) (by decide) (by decide) (by decide) (by decide)

/-- C4 counterexample: `to_uri` on an ISBN identifier returns
`Some("urn:isbn:...")`, not `None` as the claim states. -/
theorem to_uri_isbn_is_some :
    Identifier.to_uri (Identifier.Isbn (str "9780306406157")) =
      some (str "urn:isbn:9780306406157") := by decide

/-- C4 (amended): `to_uri` returns `Some` exactly for the DOI, ORCID, ROR,
URI and ISBN kinds, and `None` exactly for the OpaqueString kind. -/
theorem to_uri_none_iff_opaque (id : Identifier) :
    Identifier.to_uri id = none ↔ ∃ v, id = Identifier.Str v := by
  cases id <;> simp [Identifier.to_uri, doi.to_uri, orcid.to_uri, ror.to_uri,
    isbn.to_uri]

/-- C5: the code normalizes the valid 10-digit ISBN "0000000043" to a
13-digit form whose weighted sum is divisible by 10, so
`generate_13_digit_checksum` yields 10 (the code omits the final mod 10)
and the stored payload is "978000000004X" — which contains 'X' and is not
a string of 13 ASCII decimal digits. -/
theorem isbn_payload_not_thirteen_digits :
    Identifier.parse (str "0000000043") = Identifier.Isbn (str "978000000004X") ∧
    Identifier.from_id_string_pair (str "978000000004X") 6 =
      some (Identifier.Isbn (str "978000000004X")) ∧
    (str "978000000004X").all isDigitN = false := by decide

/-- C6 counterexample: `parse("hello")` does not return the OpaqueString
variant: a bare token is a valid URI authority (compare the crate's own
test `uri::parse_unconventional`), so the URI fallback claims it. -/
theorem parse_hello_not_opaque :
    Identifier.parse (str "hello") = Identifier.Uri (str "hello") ∧
    Identifier.parse (str "hello") ≠ Identifier.Str (str "hello") := by decide

/-- C6 (amended): an input with no recognizable identifier structure that
also fails the URI grammar (such as "hello world", or text with unencoded
non-ASCII) parses as OpaqueString wrapping the original text verbatim,
while a bare token such as "hello" is a valid URI and parses as the URI
variant wrapping the text verbatim. -/
theorem parse_unstructured_text :
    Identifier.parse (str "hello world") = Identifier.Str (str "hello world") ∧
    Identifier.parse (str "http://example.com/®") =
      Identifier.Str (str "http://example.com/®") ∧
    Identifier.parse (str "hello") = Identifier.Uri (str "hello") := by decide

/-- C10: whenever `Identifier::from_id_string_pair(s, t)` returns an
identifier, its kind agrees with the tag `t`: tag 1 yields only the DOI
variant, 2 only ORCID, 3 only ROR, 4 only URI, 6 only ISBN; tag 5 always
yields the OpaqueString variant wrapping `s` itself; and every other tag
yields nothing. -/
theorem from_id_string_pair_kind_agrees (s : List Nat) :
    (∀ id, Identifier.from_id_string_pair s 1 = some id →
      ∃ p suf, id = Identifier.Doi p suf) ∧
    (∀ id, Identifier.from_id_string_pair s 2 = some id →
      ∃ v, id = Identifier.Orcid v) ∧
    (∀ id, Identifier.from_id_string_pair s 3 = some id →
      ∃ v, id = Identifier.Ror v) ∧
    (∀ id, Identifier.from_id_string_pair s 4 = some id →
      ∃ v, id = Identifier.Uri v) ∧
    Identifier.from_id_string_pair s 5 = some (Identifier.Str s) ∧
    (∀ id, Identifier.from_id_string_pair s 6 = some id →
      ∃ v, id = Identifier.Isbn v) ∧
    (∀ t, t = 0 ∨ 7 ≤ t → Identifier.from_id_string_pair s t = none) := by
  refine ⟨?_, ?_, ?_, ?_, rfl, ?_, ?_⟩
  · intro id h; exact doi.try_parse_doi_shape h
  · intro id h; exact orcid.try_parse_orcid_shape h
  · intro id h; exact ror.try_parse_ror_shape h
  · intro id h; exact uri.try_parse_uri_shape h
  · intro id h; exact isbn.try_parse_isbn_shape h
  · intro t ht
    match t, ht with
    | 0, _ => rfl
    | (n + 7), _ => rfl

/-- Witness for C10: tag 6 on a valid ISBN string yields the ISBN variant,
and the out-of-range tag 7 yields nothing. -/
theorem from_id_string_pair_kind_agrees_witness :
    (∃ v, Identifier.Isbn (str "9780306406157") = Identifier.Isbn v) ∧
    Identifier.from_id_string_pair (str "9780306406157") 7 = none :=
  ⟨(from_id_string_pair_kind_agrees (str "9780306406157")).2.2.2.2.2.1
      (Identifier.Isbn (str "9780306406157")) (by decide),
   (from_id_string_pair_kind_agrees (str "9780306406157")).2.2.2.2.2.2 7 (by decide)⟩

/-! ## Helper lemmas about the dispatcher -/

theorem parse_eq_of_doi {s : List Nat} {r : Identifier}
    (h : doi.try_parse (IdentifierParseInput.build s) = some r) :
    Identifier.parse s = r := by
  simp [Identifier.parse, firstResult, PARSERS, h]

theorem parse_eq_of_orcid {s : List Nat} {r : Identifier}
    (h1 : doi.try_parse (IdentifierParseInput.build s) = none)
    (h : orcid.try_parse (IdentifierParseInput.build s) = some r) :
    Identifier.parse s = r := by
  simp [Identifier.parse, firstResult, PARSERS, h1, h]

theorem parse_eq_of_isbn {s : List Nat} {r : Identifier}
    (h1 : doi.try_parse (IdentifierParseInput.build s) = none)
    (h2 : orcid.try_parse (IdentifierParseInput.build s) = none)
    (h : isbn.try_parse (IdentifierParseInput.build s) = some r) :
    Identifier.parse s = r := by
  simp [Identifier.parse, firstResult, PARSERS, h1, h2, h]

theorem parse_eq_of_ror {s : List Nat} {r : Identifier}
    (h1 : doi.try_parse (IdentifierParseInput.build s) = none)
    (h2 : orcid.try_parse (IdentifierParseInput.build s) = none)
    (h3 : isbn.try_parse (IdentifierParseInput.build s) = none)
    (h : ror.try_parse (IdentifierParseInput.build s) = some r) :
    Identifier.parse s = r := by
  simp [Identifier.parse, firstResult, PARSERS, h1, h2, h3, h]

theorem parse_eq_of_uri {s : List Nat} {r : Identifier}
    (h1 : doi.try_parse (IdentifierParseInput.build s) = none)
    (h2 : orcid.try_parse (IdentifierParseInput.build s) = none)
    (h3 : isbn.try_parse (IdentifierParseInput.build s) = none)
    (h4 : ror.try_parse (IdentifierParseInput.build s) = none)
    (h : uri.try_parse (IdentifierParseInput.build s) = some r) :
    Identifier.parse s = r := by
  simp [Identifier.parse, firstResult, PARSERS, h1, h2, h3, h4, h]

theorem parse_eq_of_all_none {s : List Nat}
    (h1 : doi.try_parse (IdentifierParseInput.build s) = none)
    (h2 : orcid.try_parse (IdentifierParseInput.build s) = none)
    (h3 : isbn.try_parse (IdentifierParseInput.build s) = none)
    (h4 : ror.try_parse (IdentifierParseInput.build s) = none)
    (h5 : uri.try_parse (IdentifierParseInput.build s) = none) :
    Identifier.parse s = Identifier.Str s := by
  simp [Identifier.parse, firstResult, PARSERS, h1, h2, h3, h4, h5]

/-! ## Structure of the DOI strict capture -/

theorem all_takeWhile {α} (p : α → Bool) (l : List α) :
    ∀ c ∈ l.takeWhile p, p c = true := by
  induction l with
  | nil => simp
  | cons a l ih =>
    by_cases h : p a
    · simp only [List.takeWhile_cons, h, if_true, List.mem_cons]
      rintro c (rfl | hc)
      · exact h
      · exact ih c hc
    · simp [List.takeWhile_cons, h]

theorem doi.doiStrictCapture_eq {x p suf : List Nat}
    (h : doi.doiStrictCapture x = some (p, suf)) :
    x = p ++ ch '/' :: suf ∧
    (∃ ds, p = str "10." ++ ds ∧ ds ≠ [] ∧ ∀ c ∈ ds, isDigitN c = true) ∧
    suf ≠ [] ∧ suf.contains 10 = false := by
  match x with
  | [] => exact Option.noConfusion h
  | [a] => exact Option.noConfusion h
  | [a, b] => exact Option.noConfusion h
  | c1 :: c0 :: cd :: rest =>
    simp only [doiStrictCapture] at h
    split at h <;> rename_i hch
    · split at h <;> rename_i hdrop heq
      · split at h <;> rename_i hcond
        · cases h
          simp only [Bool.and_eq_true, decide_eq_true_eq] at hch hcond
          obtain ⟨⟨h1, h0⟩, hd⟩ := hch
          obtain ⟨⟨⟨hsl, hds⟩, hsuf⟩, hnl⟩ := hcond
          subst h1 h0 hd hsl
          refine ⟨?_, ⟨rest.takeWhile isDigitN, rfl, hds, all_takeWhile _ _⟩,
            hsuf, by simpa using hnl⟩
          have := takeWhile_len_drop isDigitN rest
          rw [heq] at this
          conv_lhs => rw [← this]
          simp
        · exact Option.noConfusion h
      · exact Option.noConfusion h
    · exact Option.noConfusion h

theorem toLowercase_suffix_stable {s p suf : List Nat} {c : Nat}
    (h : toLowercase s = p ++ c :: suf) : toLowercase suf = suf := by
  have h2 : toLowercase (p ++ c :: suf) = p ++ c :: suf := by
    rw [← h, toLowercase_idem, h]
  rw [toLowercase_append] at h2
  have hl : (toLowercase p).length = p.length := by simp [toLowercase]
  have := (List.append_inj h2 hl).2
  simp only [toLowercase, List.map_cons, List.cons.injEq] at this
  simpa [toLowercase] using this.2

/-- C7: an input whose lower-cased form already matches the raw DOI shape
"10.<digits>/<non-empty suffix>" is accepted by the DOI recognizer with
the suffix taken literally (lower-cased, never percent-decoded);
prefix-stripping and percent-decoding happen only when this raw-shape
match fails, so the already-raw DOI "10.5555/%41" keeps suffix "%41"
rather than "a". -/
theorem doi_checks_raw_shape_first :
    (∀ s p suf, doi.doiStrictCapture (toLowercase s) = some (p, suf) →
      Identifier.parse s = Identifier.Doi p suf) ∧
    Identifier.parse (str "10.5555/%41") =
      Identifier.Doi (str "10.5555") (str "%41") := by
  constructor
  · intro s p suf h
    have hdec := doi.doiStrictCapture_eq h
    have hstable : toLowercase suf = suf := toLowercase_suffix_stable hdec.1
    apply parse_eq_of_doi
    show doi.try_parse (IdentifierParseInput.build s) = _
    simp only [doi.try_parse, IdentifierParseInput.build, doi.construct, h,
      Option.isSome_some, if_true, hstable]
  · decide

/-- Witness for C7: the concrete raw-shaped input "10.5555/%41". -/
theorem doi_checks_raw_shape_first_witness :
    doi.doiStrictCapture (toLowercase (str "10.5555/%41")) =
      some (str "10.5555", str "%41") ∧
    Identifier.parse (str "10.5555/%41") =
      Identifier.Doi (str "10.5555") (str "%41") :=
  ⟨by decide, doi_checks_raw_shape_first.1 _ _ _ (by decide)⟩

/-! ## Inversion: which recognizer produced a parse result -/

theorem parse_source (s : List Nat) :
    match Identifier.parse s with
    | Identifier.Doi p suf =>
        doi.try_parse (IdentifierParseInput.build s) = some (Identifier.Doi p suf)
    | Identifier.Orcid v =>
        orcid.try_parse (IdentifierParseInput.build s) = some (Identifier.Orcid v)
    | Identifier.Ror v =>
        ror.try_parse (IdentifierParseInput.build s) = some (Identifier.Ror v)
    | Identifier.Uri v =>
        uri.try_parse (IdentifierParseInput.build s) = some (Identifier.Uri v)
    | Identifier.Isbn v =>
        isbn.try_parse (IdentifierParseInput.build s) = some (Identifier.Isbn v)
    | Identifier.Str v =>
        v = s ∧
        doi.try_parse (IdentifierParseInput.build s) = none ∧
        orcid.try_parse (IdentifierParseInput.build s) = none ∧
        isbn.try_parse (IdentifierParseInput.build s) = none ∧
        ror.try_parse (IdentifierParseInput.build s) = none ∧
        uri.try_parse (IdentifierParseInput.build s) = none := by
  match h1 : doi.try_parse (IdentifierParseInput.build s) with
  | some r =>
    obtain ⟨p, suf, rfl⟩ := doi.try_parse_doi_shape h1
    rw [parse_eq_of_doi h1]
  | none =>
  match h2 : orcid.try_parse (IdentifierParseInput.build s) with
  | some r =>
    obtain ⟨v, rfl⟩ := orcid.try_parse_orcid_shape h2
    rw [parse_eq_of_orcid h1 h2]
  | none =>
  match h3 : isbn.try_parse (IdentifierParseInput.build s) with
  | some r =>
    obtain ⟨v, rfl⟩ := isbn.try_parse_isbn_shape h3
    rw [parse_eq_of_isbn h1 h2 h3]
  | none =>
  match h4 : ror.try_parse (IdentifierParseInput.build s) with
  | some r =>
    obtain ⟨v, rfl⟩ := ror.try_parse_ror_shape h4
    rw [parse_eq_of_ror h1 h2 h3 h4]
  | none =>
  match h5 : uri.try_parse (IdentifierParseInput.build s) with
  | some r =>
    obtain ⟨v, rfl⟩ := uri.try_parse_uri_shape h5
    rw [parse_eq_of_uri h1 h2 h3 h4 h5]
  | none =>
    rw [parse_eq_of_all_none h1 h2 h3 h4 h5]
    exact ⟨rfl, rfl, rfl, rfl, rfl, rfl⟩

theorem parse_doi_inv {s p suf : List Nat}
    (h : Identifier.parse s = Identifier.Doi p suf) :
    doi.try_parse (IdentifierParseInput.build s) = some (Identifier.Doi p suf) := by
  have := parse_source s
  rw [h] at this
  exact this

theorem parse_orcid_inv {s v : List Nat}
    (h : Identifier.parse s = Identifier.Orcid v) :
    orcid.try_parse (IdentifierParseInput.build s) = some (Identifier.Orcid v) := by
  have := parse_source s
  rw [h] at this
  exact this

theorem parse_ror_inv {s v : List Nat}
    (h : Identifier.parse s = Identifier.Ror v) :
    ror.try_parse (IdentifierParseInput.build s) = some (Identifier.Ror v) := by
  have := parse_source s
  rw [h] at this
  exact this

theorem parse_uri_inv {s v : List Nat}
    (h : Identifier.parse s = Identifier.Uri v) :
    uri.try_parse (IdentifierParseInput.build s) = some (Identifier.Uri v) := by
  have := parse_source s
  rw [h] at this
  exact this

theorem parse_isbn_inv {s v : List Nat}
    (h : Identifier.parse s = Identifier.Isbn v) :
    isbn.try_parse (IdentifierParseInput.build s) = some (Identifier.Isbn v) := by
  have := parse_source s
  rw [h] at this
  exact this

theorem parse_str_inv {s v : List Nat}
    (h : Identifier.parse s = Identifier.Str v) :
    v = s ∧
    doi.try_parse (IdentifierParseInput.build s) = none ∧
    orcid.try_parse (IdentifierParseInput.build s) = none ∧
    isbn.try_parse (IdentifierParseInput.build s) = none ∧
    ror.try_parse (IdentifierParseInput.build s) = none ∧
    uri.try_parse (IdentifierParseInput.build s) = none := by
  have := parse_source s
  rw [h] at this
  exact this

/-- A `Uri`-kind result always wraps the input itself: the model's URI
rendering is lossless. -/
theorem parse_uri_value_eq {s v : List Nat}
    (h : Identifier.parse s = Identifier.Uri v) : v = s := by
  have h5 := parse_uri_inv h
  unfold uri.try_parse at h5
  cases hu : (IdentifierParseInput.build s).uri with
  | none => rw [hu] at h5; exact Option.noConfusion h5
  | some u =>
    rw [hu] at h5
    have h6 : Identifier.Uri (httpuri.uriToString u) = Identifier.Uri v := by
      simpa using h5
    injection h6 with h7
    have hp : httpuri.uriParse s = some u := hu
    rw [← h7]
    exact httpuri.uriToString_uriParse hp

namespace httpuri

/-- Inversion for the URI parser: the three accepted surface forms and the
validity facts each one guarantees. -/
theorem uriParse_cases {s : List Nat} {U : Uri} (h : uriParse s = some U) :
    (U.scheme = none ∧ U.authority = none ∧ U.pathq = s ∧
      s.all isPathqChar = true) ∨
    (∃ sch auth, U = ⟨some sch, some auth, U.pathq⟩ ∧ sch ≠ [] ∧
      sch.all isSchemeChar = true ∧ isAlphaN sch.headI = true ∧ auth ≠ [] ∧
      auth.all isAuthChar = true ∧ U.pathq.all isPathqChar = true ∧
      s = sch ++ str "://" ++ auth ++ U.pathq) ∨
    (U.scheme = none ∧ U.authority = some s ∧ U.pathq = [] ∧
      s.all isAuthChar = true) := by
  have hts := uriToString_uriParse h
  match s with
  | [] => simp [uriParse] at h
  | c :: cs =>
    simp only [uriParse] at h
    by_cases hc : c = ch '/'
    · subst hc
      rw [if_pos rfl] at h
      split at h <;> rename_i hall
      · cases h
        exact Or.inl ⟨rfl, rfl, rfl, hall⟩
      · exact Option.noConfusion h
    · simp only [hc, if_false] at h
      match hsp : splitSchemeSep (c :: cs) with
      | some (sch, rest) =>
        simp only [hsp] at h
        split at h <;> rename_i hcond
        · cases h
          simp only [Bool.and_eq_true, decide_eq_true_eq] at hcond
          obtain ⟨⟨⟨⟨⟨hs1, hs2⟩, hs3⟩, ha1⟩, ha2⟩, hpq⟩ := hcond
          refine Or.inr (Or.inl ⟨sch, _, rfl, hs1, hs2, hs3, ha1, ha2, hpq, ?_⟩)
          exact hts.symm
        · exact Option.noConfusion h
      | none =>
        simp only [hsp] at h
        split at h <;> rename_i hall
        · cases h
          exact Or.inr (Or.inr ⟨rfl, rfl, rfl, hall⟩)
        · exact Option.noConfusion h

theorem uriParse_pathq_valid {s : List Nat} {U : Uri} (h : uriParse s = some U) :
    U.pathq.all isPathqChar = true := by
  rcases uriParse_cases h with ⟨_, _, hp, hall⟩ | ⟨sch, auth, _, _, _, _, _, _, hpq, _⟩ |
    ⟨_, _, hp, _⟩
  · rw [hp]; exact hall
  · exact hpq
  · simp [hp]

/-- If the parse produced an authority but no scheme, the input was the
authority-form and the path-and-query is empty. -/
theorem uriParse_scheme_none {s : List Nat} {U : Uri} (h : uriParse s = some U)
    (hs : U.scheme = none) (ha : U.authority ≠ none) : U.pathq = [] := by
  rcases uriParse_cases h with ⟨_, hauth, _, _⟩ | ⟨sch, auth, hU, _⟩ | ⟨_, _, hp, _⟩
  · exact absurd hauth ha
  · rw [hU] at hs; exact Option.noConfusion hs
  · exact hp

/-- If the parse produced a scheme, the input was the full form. -/
theorem uriParse_scheme_some {s : List Nat} {U : Uri} (h : uriParse s = some U)
    {sch : List Nat} (hs : U.scheme = some sch) :
    ∃ auth, U.authority = some auth ∧ sch.all isSchemeChar = true ∧
      s = sch ++ str "://" ++ auth ++ U.pathq := by
  rcases uriParse_cases h with ⟨hn, _, _, _⟩ | ⟨sch', auth, hU, _, hsc, _, _, _, _, hdec⟩ |
    ⟨hn, _, _, _⟩
  · rw [hn] at hs; exact Option.noConfusion hs
  · rw [hU] at hs
    simp only [Option.some.injEq] at hs
    subst hs
    exact ⟨auth, by rw [hU], hsc, hdec⟩
  · rw [hn] at hs; exact Option.noConfusion hs

end httpuri

theorem mem_of_mem_takeWhile {α} {p : α → Bool} {l : List α} {x : α}
    (h : x ∈ l.takeWhile p) : x ∈ l := by
  have := takeWhile_len_drop p l
  rw [← this]
  exact List.mem_append_left _ h

/-- Characters of `path_no_slash` are valid path-and-query characters. -/
theorem path_no_slash_valid {s p : List Nat}
    (h : (IdentifierParseInput.build s).path_no_slash = some p) :
    ∀ c ∈ p, httpuri.isPathqChar c = true := by
  unfold IdentifierParseInput.path_no_slash at h
  cases hu : (IdentifierParseInput.build s).uri with
  | none => rw [hu] at h; exact Option.noConfusion h
  | some u =>
    rw [hu] at h
    have hall := httpuri.uriParse_pathq_valid (show httpuri.uriParse s = some u from hu)
    have hpathall : ∀ c ∈ httpuri.path u, httpuri.isPathqChar c = true := by
      intro c hc
      exact List.all_eq_true.mp hall c (mem_of_mem_takeWhile hc)
    simp only [Option.some.injEq] at h
    rw [← h]
    split <;> rename_i heq
    · intro c hc
      have := dropLit_eq_some heq
      exact hpathall c (by rw [this]; exact List.mem_append_right _ hc)
    · exact hpathall

/-! ## ORCID: invariants of recognized values -/

/-- The characters an ORCID iD value can contain. -/
def isOrcidChar (n : Nat) : Bool := isDigitN n || n = ch '-' || n = ch 'X'

theorem isOrcidChar_upper_stable {n : Nat} (h : isOrcidChar n = true) :
    upperN n = n := by
  simp [isOrcidChar, isDigitN, ch] at h
  have : ¬ isLowerN n = true := by
    rw [isLowerN_iff]; omega
  simp [upperN, this]

theorem isOrcidChar_pathq {n : Nat} (h : isOrcidChar n = true) :
    httpuri.isPathqChar n = true := by
  simp [isOrcidChar, isDigitN, ch] at h
  simp [httpuri.isPathqChar, httpuri.isPchar, httpuri.isUnreserved,
    httpuri.isSubDelim, isAlphaN, isUpperN, isLowerN, isDigitN, ch]
  omega

theorem isOrcidChar_ne_qm {n : Nat} (h : isOrcidChar n = true) : ¬ n = ch '?' := by
  simp [isOrcidChar, isDigitN, ch] at h ⊢
  omega

theorem orcid.validate_chars_orcid {v : List Nat}
    (h : orcid.validate_check_digit v = true) : v.all isOrcidChar = true := by
  unfold orcid.validate_check_digit at h
  match hcap : orcid.orcidCapture v with
  | none => rw [hcap] at h; exact Bool.noConfusion h
  | some (digits, check) =>
    clear h
    unfold orcid.orcidCapture at hcap
    split at hcap
    · split at hcap <;> rename_i hcond
      · simp only [Bool.and_eq_true, decide_eq_true_eq] at hcond
        obtain ⟨⟨⟨⟨h15, hh1⟩, hh2⟩, hh3⟩, he⟩ := hcond
        simp only [List.all_cons, List.all_nil, Bool.and_eq_true] at h15
        simp only [List.all_cons, List.all_nil, Bool.and_true, Bool.and_eq_true,
          isOrcidChar, Bool.or_eq_true, decide_eq_true_eq]
        refine ⟨Or.inl (Or.inl h15.1), Or.inl (Or.inl h15.2.1),
          Or.inl (Or.inl h15.2.2.1), Or.inl (Or.inl h15.2.2.2.1),
          Or.inl (Or.inr hh1),
          Or.inl (Or.inl h15.2.2.2.2.1), Or.inl (Or.inl h15.2.2.2.2.2.1),
          Or.inl (Or.inl h15.2.2.2.2.2.2.1), Or.inl (Or.inl h15.2.2.2.2.2.2.2.1),
          Or.inl (Or.inr hh2),
          Or.inl (Or.inl h15.2.2.2.2.2.2.2.2.1), Or.inl (Or.inl h15.2.2.2.2.2.2.2.2.2.1),
          Or.inl (Or.inl h15.2.2.2.2.2.2.2.2.2.2.1),
          Or.inl (Or.inl h15.2.2.2.2.2.2.2.2.2.2.2.1),
          Or.inl (Or.inr hh3),
          Or.inl (Or.inl h15.2.2.2.2.2.2.2.2.2.2.2.2.1),
          Or.inl (Or.inl h15.2.2.2.2.2.2.2.2.2.2.2.2.2.1),
          Or.inl (Or.inl h15.2.2.2.2.2.2.2.2.2.2.2.2.2.2.1), ?_⟩
        simp only [Bool.or_eq_true, decide_eq_true_eq] at he
        rcases he with he | he
        · exact Or.inl (Or.inl he)
        · exact Or.inr he
      · exact Option.noConfusion hcap
    · exact Option.noConfusion hcap

/-! ## Decline lemmas for resolver-style URLs -/

theorem doi.try_parse_orcid_url (v : List Nat) :
    doi.try_parse (IdentifierParseInput.build (str "https://orcid.org/" ++ v)) = none := by
  have hlc : toLowercase (str "https://orcid.org/" ++ v) =
      str "https://orcid.org/" ++ toLowercase v := by
    rw [toLowercase_append,
      show toLowercase (str "https://orcid.org/") = str "https://orcid.org/" from by decide]
  have hcap : doi.doiStrictCapture (str "https://orcid.org/" ++ toLowercase v) = none := by
    simp [doi.doiStrictCapture, str, ch]
  have hstrip : doi.remove_doi_prefixes (str "https://orcid.org/" ++ toLowercase v) =
      str "orcid.org/" ++ toLowercase v := by
    simp [doi.remove_doi_prefixes, doi.stripFirstAlt, doi.stripFirstHostAlt,
      doi.URI_PREFIXES_SCHEME, doi.URI_PREFIXES_HOST, doi.hostPat, doi.dropPat,
      dropLit, str]
  have hre : doi.doiReMatch (str "orcid.org/" ++ toLowercase v) = false := by
    simp [doi.doiReMatch, str, ch]
  simp only [doi.try_parse, IdentifierParseInput.build, hlc, hcap, hstrip, hre,
    Option.isSome_none, Bool.false_eq_true, if_false]

theorem doi.declines_ror_url_doi (v : List Nat) :
    doi.try_parse (IdentifierParseInput.build (str "https://ror.org/" ++ v)) = none := by
  have hlc : toLowercase (str "https://ror.org/" ++ v) =
      str "https://ror.org/" ++ toLowercase v := by
    rw [toLowercase_append,
      show toLowercase (str "https://ror.org/") = str "https://ror.org/" from by decide]
  have hcap : doi.doiStrictCapture (str "https://ror.org/" ++ toLowercase v) = none := by
    simp [doi.doiStrictCapture, str, ch]
  have hstrip : doi.remove_doi_prefixes (str "https://ror.org/" ++ toLowercase v) =
      str "ror.org/" ++ toLowercase v := by
    simp [doi.remove_doi_prefixes, doi.stripFirstAlt, doi.stripFirstHostAlt,
      doi.URI_PREFIXES_SCHEME, doi.URI_PREFIXES_HOST, doi.hostPat, doi.dropPat,
      dropLit, str]
  have hre : doi.doiReMatch (str "ror.org/" ++ toLowercase v) = false := by
    simp [doi.doiReMatch, str, ch]
  simp only [doi.try_parse, IdentifierParseInput.build, hlc, hcap, hstrip, hre,
    Option.isSome_none, Bool.false_eq_true, if_false]

theorem httpuri.uriParse_orcid_url {v : List Nat}
    (hv : ∀ c ∈ v, httpuri.isPathqChar c = true) :
    httpuri.uriParse (str "https://orcid.org/" ++ v) =
      some ⟨some (str "https"), some (str "orcid.org"), ch '/' :: v⟩ := by
  simp [httpuri.uriParse, httpuri.splitSchemeSep, dropLit, str, ch,
    httpuri.isSchemeChar, httpuri.isAuthChar, httpuri.isPchar,
    httpuri.isUnreserved, httpuri.isSubDelim, isAlphaN, isUpperN, isLowerN, isDigitN]
  exact ⟨by decide, fun x hx => by simpa using hv x hx⟩

theorem httpuri.uriParse_ror_url {v : List Nat}
    (hv : ∀ c ∈ v, httpuri.isPathqChar c = true) :
    httpuri.uriParse (str "https://ror.org/" ++ v) =
      some ⟨some (str "https"), some (str "ror.org"), ch '/' :: v⟩ := by
  simp [httpuri.uriParse, httpuri.splitSchemeSep, dropLit, str, ch,
    httpuri.isSchemeChar, httpuri.isAuthChar, httpuri.isPchar,
    httpuri.isUnreserved, httpuri.isSubDelim, isAlphaN, isUpperN, isLowerN, isDigitN]
  exact ⟨by decide, fun x hx => by simpa using hv x hx⟩

theorem map_id_of_mem {α} {f : α → α} {l : List α} (h : ∀ x ∈ l, f x = x) :
    l.map f = l := by
  induction l with
  | nil => rfl
  | cons a l ih =>
    simp only [List.map_cons, h a (by simp)]
    rw [ih (fun x hx => h x (by simp [hx]))]

/-! ## Re-parsing the ORCID stable string -/

theorem orcid.reparse_orcid {v : List Nat}
    (hval : orcid.validate_check_digit v = true) :
    Identifier.parse (str "https://orcid.org/" ++ v) = Identifier.Orcid v := by
  have hchars := orcid.validate_chars_orcid hval
  have hchars' : ∀ c ∈ v, isOrcidChar c = true := List.all_eq_true.mp hchars
  have hpq : ∀ c ∈ v, httpuri.isPathqChar c = true :=
    fun c hc => isOrcidChar_pathq (hchars' c hc)
  have huri := httpuri.uriParse_orcid_url hpq
  apply parse_eq_of_orcid (doi.try_parse_orcid_url v)
  have hbuild : IdentifierParseInput.build (str "https://orcid.org/" ++ v) =
      ⟨str "https://orcid.org/" ++ v,
       some ⟨some (str "https"), some (str "orcid.org"), ch '/' :: v⟩⟩ := by
    simp [IdentifierParseInput.build, huri]
  rw [hbuild]
  have hpath : (⟨str "https://orcid.org/" ++ v,
      some ⟨some (str "https"), some (str "orcid.org"), ch '/' :: v⟩⟩ :
      IdentifierParseInput).path_no_slash = some v := by
    simp only [IdentifierParseInput.path_no_slash, httpuri.path]
    have htw : (ch '/' :: v).takeWhile (fun c => c ≠ ch '?') = ch '/' :: v := by
      rw [List.takeWhile_eq_self_iff]
      intro x hx
      rcases List.mem_cons.mp hx with rfl | hx'
      · decide
      · simpa using isOrcidChar_ne_qm (hchars' x hx')
    rw [htw]
    simp [dropLit, ch]
  have hupper : toUppercase v = v :=
    map_id_of_mem (fun c hc => isOrcidChar_upper_stable (hchars' c hc))
  have hpnsu : (⟨str "https://orcid.org/" ++ v,
      some ⟨some (str "https"), some (str "orcid.org"), ch '/' :: v⟩⟩ :
      IdentifierParseInput).path_no_slash_uppercase = some v := by
    unfold IdentifierParseInput.path_no_slash_uppercase
    rw [hpath]
    simp [hupper]
  have hhostl : (⟨str "https://orcid.org/" ++ v,
      some ⟨some (str "https"), some (str "orcid.org"), ch '/' :: v⟩⟩ :
      IdentifierParseInput).host_lowercase = some (str "orcid.org") := by
    simp only [IdentifierParseInput.host_lowercase, IdentifierParseInput.host,
      httpuri.host]
    decide
  simp [orcid.try_parse, hpnsu, hhostl, orcid.HOST, hval]

/-! ## ROR: invariants of recognized values and re-parsing -/

/-- The characters a ROR code can contain (per `PATH_RE`). -/
def isRorPathChar (n : Nat) : Bool :=
  n = ch '0' || ror.isRorClassChar n || isDigitN n

theorem isRorPathChar_ne_qm {n : Nat} (h : isRorPathChar n = true) : ¬ n = ch '?' := by
  simp [isRorPathChar, ror.isRorClassChar, isDigitN, ch] at h ⊢
  omega

theorem ror.validate_chars_ror {v : List Nat}
    (h : ror.validate_check_digit v = true) : v.all isRorPathChar = true := by
  unfold ror.validate_check_digit at h
  match hcap : ror.rorCapture v with
  | none => rw [hcap] at h; exact Bool.noConfusion h
  | some (identifier, k1, k2) =>
    clear h
    unfold ror.rorCapture at hcap
    split at hcap
    · split at hcap <;> rename_i hcond
      · simp only [Bool.and_eq_true, decide_eq_true_eq] at hcond
        obtain ⟨⟨⟨hz, h6⟩, hk1⟩, hk2⟩ := hcond
        simp only [List.all_cons, List.all_nil, Bool.and_eq_true] at h6
        simp only [List.all_cons, List.all_nil, Bool.and_true, Bool.and_eq_true,
          isRorPathChar, Bool.or_eq_true, decide_eq_true_eq]
        exact ⟨Or.inl (Or.inl hz), Or.inl (Or.inr h6.1), Or.inl (Or.inr h6.2.1),
          Or.inl (Or.inr h6.2.2.1), Or.inl (Or.inr h6.2.2.2.1),
          Or.inl (Or.inr h6.2.2.2.2.1), Or.inl (Or.inr h6.2.2.2.2.2.1),
          Or.inr hk1, Or.inr hk2⟩
      · exact Option.noConfusion hcap
    · exact Option.noConfusion hcap

theorem orcid.declines_ror_url_orcid {v : List Nat}
    (hv : ∀ c ∈ v, httpuri.isPathqChar c = true) :
    orcid.try_parse (IdentifierParseInput.build (str "https://ror.org/" ++ v)) = none := by
  have huri := httpuri.uriParse_ror_url hv
  have hbuild : IdentifierParseInput.build (str "https://ror.org/" ++ v) =
      ⟨str "https://ror.org/" ++ v,
       some ⟨some (str "https"), some (str "ror.org"), ch '/' :: v⟩⟩ := by
    simp [IdentifierParseInput.build, huri]
  rw [hbuild]
  have hhostl : (⟨str "https://ror.org/" ++ v,
      some ⟨some (str "https"), some (str "ror.org"), ch '/' :: v⟩⟩ :
      IdentifierParseInput).host_lowercase = some (str "ror.org") := by
    simp only [IdentifierParseInput.host_lowercase, IdentifierParseInput.host,
      httpuri.host]
    decide
  simp only [orcid.try_parse, IdentifierParseInput.path_no_slash_uppercase,
    IdentifierParseInput.path_no_slash, httpuri.path, Option.map_some', hhostl]
  rw [if_neg (by decide)]

theorem isbn.declines_ror_url_isbn (v : List Nat) :
    isbn.try_parse (IdentifierParseInput.build (str "https://ror.org/" ++ v)) = none := by
  have hup : toUppercase (str "https://ror.org/" ++ v) =
      str "HTTPS://ROR.ORG/" ++ toUppercase v := by
    rw [toUppercase_append,
      show toUppercase (str "https://ror.org/") = str "HTTPS://ROR.ORG/" from by decide]
  simp only [isbn.try_parse, IdentifierParseInput.build]
  rw [hup]
  simp [dropLit, str, ch, isbn.str_to_digits, isDigitN]

theorem ror.reparse_ror {v : List Nat}
    (hval : ror.validate_check_digit v = true)
    (hv : ∀ c ∈ v, httpuri.isPathqChar c = true) :
    Identifier.parse (str "https://ror.org/" ++ v) = Identifier.Ror v := by
  have hchars' : ∀ c ∈ v, isRorPathChar c = true :=
    List.all_eq_true.mp (ror.validate_chars_ror hval)
  have huri := httpuri.uriParse_ror_url hv
  apply parse_eq_of_ror (doi.declines_ror_url_doi v) (orcid.declines_ror_url_orcid hv)
    (isbn.declines_ror_url_isbn v)
  have hbuild : IdentifierParseInput.build (str "https://ror.org/" ++ v) =
      ⟨str "https://ror.org/" ++ v,
       some ⟨some (str "https"), some (str "ror.org"), ch '/' :: v⟩⟩ := by
    simp [IdentifierParseInput.build, huri]
  rw [hbuild]
  have hpath : (⟨str "https://ror.org/" ++ v,
      some ⟨some (str "https"), some (str "ror.org"), ch '/' :: v⟩⟩ :
      IdentifierParseInput).path_no_slash = some v := by
    simp only [IdentifierParseInput.path_no_slash, httpuri.path]
    have htw : (ch '/' :: v).takeWhile (fun c => c ≠ ch '?') = ch '/' :: v := by
      rw [List.takeWhile_eq_self_iff]
      intro x hx
      rcases List.mem_cons.mp hx with rfl | hx'
      · decide
      · simpa using isRorPathChar_ne_qm (hchars' x hx')
    rw [htw]
    simp [dropLit, ch]
  have hhostl : (⟨str "https://ror.org/" ++ v,
      some ⟨some (str "https"), some (str "ror.org"), ch '/' :: v⟩⟩ :
      IdentifierParseInput).host_lowercase = some (str "ror.org") := by
    simp only [IdentifierParseInput.host_lowercase, IdentifierParseInput.host,
      httpuri.host]
    decide
  simp [ror.try_parse, hpath, hhostl, ror.HOST, hval]

/-! ## Case-sensitivity of ROR codes -/

theorem upperN_of_lower_eq {c : Nat} (h : isLowerN c = true) : upperN c = c - 32 := by
  simp [upperN, h]

theorem isPathqChar_upperN_of_lower {c : Nat} (h : isLowerN c = true) :
    httpuri.isPathqChar (upperN c) = true := by
  rw [upperN_of_lower_eq h]
  rw [isLowerN_iff] at h
  simp [httpuri.isPathqChar, httpuri.isPchar, httpuri.isUnreserved,
    isAlphaN, isUpperN, isLowerN, isDigitN, ch]
  omega

theorem upperN_ne_qm_of_lower {c : Nat} (h : isLowerN c = true) :
    ¬ upperN c = ch '?' := by
  rw [upperN_of_lower_eq h]
  rw [isLowerN_iff] at h
  simp [ch]
  omega

theorem isRorClassChar_upperN_false {c : Nat} (h : isLowerN c = true) :
    ror.isRorClassChar (upperN c) = false := by
  rw [upperN_of_lower_eq h]
  rw [isLowerN_iff] at h
  simp [ror.isRorClassChar, isDigitN, ch]
  omega

theorem ror.try_parse_some_inv_ror {i : IdentifierParseInput} {v : List Nat}
    (h : ror.try_parse i = some (Identifier.Ror v)) :
    i.host_lowercase = some ror.HOST ∧ i.path_no_slash = some v ∧
    ror.validate_check_digit v = true := by
  unfold ror.try_parse at h
  match hh : i.host_lowercase with
  | none => rw [hh] at h; simp at h
  | some host =>
    rw [hh] at h
    simp only at h
    split at h <;> rename_i hhost
    · match hp : i.path_no_slash with
      | none => rw [hp] at h; simp at h
      | some path =>
        rw [hp] at h
        simp only at h
        split at h <;> rename_i hval
        · simp only [Option.some.injEq, Identifier.Ror.injEq] at h
          subst h
          exact ⟨by rw [hhost], rfl, hval⟩
        · simp at h
    · simp at h

theorem ror.validate_shape {v : List Nat}
    (h : ror.validate_check_digit v = true) :
    ∃ c1 c2 c3 c4 c5 c6 k1 k2,
      v = [ch '0', c1, c2, c3, c4, c5, c6, k1, k2] ∧
      ror.isRorClassChar c1 = true ∧ ror.isRorClassChar c2 = true ∧
      ror.isRorClassChar c3 = true ∧ ror.isRorClassChar c4 = true ∧
      ror.isRorClassChar c5 = true ∧ ror.isRorClassChar c6 = true ∧
      isDigitN k1 = true ∧ isDigitN k2 = true := by
  unfold ror.validate_check_digit at h
  match hcap : ror.rorCapture v with
  | none => rw [hcap] at h; exact Bool.noConfusion h
  | some (identifier, k1, k2) =>
    clear h
    unfold ror.rorCapture at hcap
    split at hcap
    · split at hcap <;> rename_i hcond
      · simp only [Bool.and_eq_true, decide_eq_true_eq] at hcond
        obtain ⟨⟨⟨hz, h6⟩, hk1⟩, hk2⟩ := hcond
        simp only [List.all_cons, List.all_nil, Bool.and_true, Bool.and_eq_true] at h6
        subst hz
        exact ⟨_, _, _, _, _, _, _, _, rfl, h6.1, h6.2.1, h6.2.2.1, h6.2.2.2.1,
          h6.2.2.2.2.1, h6.2.2.2.2.2, hk1, hk2⟩
      · exact Option.noConfusion hcap
    · exact Option.noConfusion hcap

/-- A ror.org URL whose path fails the ROR check parses as a generic URI. -/
theorem parse_ror_url_uri {w : List Nat}
    (hpq : ∀ c ∈ w, httpuri.isPathqChar c = true)
    (hq : ∀ c ∈ w, ¬ c = ch '?')
    (hvalf : ror.validate_check_digit w = false) :
    ror.try_parse (IdentifierParseInput.build (str "https://ror.org/" ++ w)) = none ∧
    Identifier.parse (str "https://ror.org/" ++ w) =
      Identifier.Uri (str "https://ror.org/" ++ w) := by
  have huri := httpuri.uriParse_ror_url hpq
  have hbuild : IdentifierParseInput.build (str "https://ror.org/" ++ w) =
      ⟨str "https://ror.org/" ++ w,
       some ⟨some (str "https"), some (str "ror.org"), ch '/' :: w⟩⟩ := by
    simp [IdentifierParseInput.build, huri]
  have hpath : (⟨str "https://ror.org/" ++ w,
      some ⟨some (str "https"), some (str "ror.org"), ch '/' :: w⟩⟩ :
      IdentifierParseInput).path_no_slash = some w := by
    simp only [IdentifierParseInput.path_no_slash, httpuri.path]
    have htw : (ch '/' :: w).takeWhile (fun c => c ≠ ch '?') = ch '/' :: w := by
      rw [List.takeWhile_eq_self_iff]
      intro x hx
      rcases List.mem_cons.mp hx with rfl | hx'
      · decide
      · simpa using hq x hx'
    rw [htw]
    simp [dropLit, ch]
  have hhostl : (⟨str "https://ror.org/" ++ w,
      some ⟨some (str "https"), some (str "ror.org"), ch '/' :: w⟩⟩ :
      IdentifierParseInput).host_lowercase = some (str "ror.org") := by
    simp only [IdentifierParseInput.host_lowercase, IdentifierParseInput.host,
      httpuri.host]
    decide
  have hror : ror.try_parse (IdentifierParseInput.build (str "https://ror.org/" ++ w)) = none := by
    rw [hbuild]
    simp [ror.try_parse, hpath, hhostl, ror.HOST, hvalf]
  refine ⟨hror, ?_⟩
  apply parse_eq_of_uri (doi.declines_ror_url_doi w) (orcid.declines_ror_url_orcid hpq)
    (isbn.declines_ror_url_isbn w) hror
  rw [hbuild]
  show some (Identifier.Uri (httpuri.uriToString _)) = _
  have hts := httpuri.uriToString_uriParse huri
  rw [hts]

/-- C9: `parse("https://ror.org/02twcfp32")` returns the ROR kind, and for
every recognized ROR URI, replacing any lower-case letter of the
9-character code by its upper-case form makes the ROR recognizer decline,
so that `Identifier::parse` returns the generic URI kind instead
(ROR matching is case-sensitive). -/
theorem ror_parse_and_case_sensitivity :
    Identifier.parse (str "https://ror.org/02twcfp32") =
      Identifier.Ror (str "02twcfp32") ∧
    ∀ code i (hi : i < code.length),
      Identifier.parse (str "https://ror.org/" ++ code) = Identifier.Ror code →
      isLowerN (code.get ⟨i, hi⟩) = true →
      ror.try_parse (IdentifierParseInput.build
        (str "https://ror.org/" ++ code.set i (upperN (code.get ⟨i, hi⟩)))) = none ∧
      Identifier.parse (str "https://ror.org/" ++ code.set i (upperN (code.get ⟨i, hi⟩))) =
        Identifier.Uri
          (str "https://ror.org/" ++ code.set i (upperN (code.get ⟨i, hi⟩))) := by
  constructor
  · decide
  · intro code i hi hparse hlow
    obtain ⟨hhost, hpath, hval⟩ := ror.try_parse_some_inv_ror (parse_ror_inv hparse)
    have hpqv : ∀ c ∈ code, httpuri.isPathqChar c = true := path_no_slash_valid hpath
    obtain ⟨c1, c2, c3, c4, c5, c6, k1, k2, hshape, hc1, hc2, hc3, hc4, hc5, hc6,
      hk1, hk2⟩ := ror.validate_shape hval
    subst hshape
    have hi9 : i < 9 := by simpa using hi
    have hclassq : ∀ c, ror.isRorClassChar c = true → ¬ c = ch '?' := by
      intro c hc
      simp [ror.isRorClassChar, isDigitN, ch] at hc ⊢
      omega
    have hdigq : ∀ c, isDigitN c = true → ¬ c = ch '?' := by
      intro c hc
      rw [isDigitN_iff] at hc
      simp [ch]
      omega
    interval_cases i
    · simp [List.get] at hlow
      exact absurd hlow (by decide)
    · simp only [List.get, List.set] at hlow ⊢
      refine parse_ror_url_uri ?_ ?_ ?_
      · intro c hc
        simp only [List.mem_cons, List.not_mem_nil, or_false] at hc
        rcases hc with rfl|rfl|rfl|rfl|rfl|rfl|rfl|rfl|rfl
        · decide
        · exact isPathqChar_upperN_of_lower hlow
        · exact hpqv _ (by simp)
        · exact hpqv _ (by simp)
        · exact hpqv _ (by simp)
        · exact hpqv _ (by simp)
        · exact hpqv _ (by simp)
        · exact hpqv _ (by simp)
        · exact hpqv _ (by simp)
      · intro c hc
        simp only [List.mem_cons, List.not_mem_nil, or_false] at hc
        rcases hc with rfl|rfl|rfl|rfl|rfl|rfl|rfl|rfl|rfl
        · decide
        · exact upperN_ne_qm_of_lower hlow
        · exact hclassq _ hc2
        · exact hclassq _ hc3
        · exact hclassq _ hc4
        · exact hclassq _ hc5
        · exact hclassq _ hc6
        · exact hdigq _ hk1
        · exact hdigq _ hk2
      · simp [ror.validate_check_digit, ror.rorCapture,
          isRorClassChar_upperN_false hlow]
    · simp only [List.get, List.set] at hlow ⊢
      refine parse_ror_url_uri ?_ ?_ ?_
      · intro c hc
        simp only [List.mem_cons, List.not_mem_nil, or_false] at hc
        rcases hc with rfl|rfl|rfl|rfl|rfl|rfl|rfl|rfl|rfl
        · decide
        · exact hpqv _ (by simp)
        · exact isPathqChar_upperN_of_lower hlow
        · exact hpqv _ (by simp)
        · exact hpqv _ (by simp)
        · exact hpqv _ (by simp)
        · exact hpqv _ (by simp)
        · exact hpqv _ (by simp)
        · exact hpqv _ (by simp)
      · intro c hc
        simp only [List.mem_cons, List.not_mem_nil, or_false] at hc
        rcases hc with rfl|rfl|rfl|rfl|rfl|rfl|rfl|rfl|rfl
        · decide
        · exact hclassq _ hc1
        · exact upperN_ne_qm_of_lower hlow
        · exact hclassq _ hc3
        · exact hclassq _ hc4
        · exact hclassq _ hc5
        · exact hclassq _ hc6
        · exact hdigq _ hk1
        · exact hdigq _ hk2
      · simp [ror.validate_check_digit, ror.rorCapture,
          isRorClassChar_upperN_false hlow]
    · simp only [List.get, List.set] at hlow ⊢
      refine parse_ror_url_uri ?_ ?_ ?_
      · intro c hc
        simp only [List.mem_cons, List.not_mem_nil, or_false] at hc
        rcases hc with rfl|rfl|rfl|rfl|rfl|rfl|rfl|rfl|rfl
        · decide
        · exact hpqv _ (by simp)
        · exact hpqv _ (by simp)
        · exact isPathqChar_upperN_of_lower hlow
        · exact hpqv _ (by simp)
        · exact hpqv _ (by simp)
        · exact hpqv _ (by simp)
        · exact hpqv _ (by simp)
        · exact hpqv _ (by simp)
      · intro c hc
        simp only [List.mem_cons, List.not_mem_nil, or_false] at hc
        rcases hc with rfl|rfl|rfl|rfl|rfl|rfl|rfl|rfl|rfl
        · decide
        · exact hclassq _ hc1
        · exact hclassq _ hc2
        · exact upperN_ne_qm_of_lower hlow
        · exact hclassq _ hc4
        · exact hclassq _ hc5
        · exact hclassq _ hc6
        · exact hdigq _ hk1
        · exact hdigq _ hk2
      · simp [ror.validate_check_digit, ror.rorCapture,
          isRorClassChar_upperN_false hlow]
    · simp only [List.get, List.set] at hlow ⊢
      refine parse_ror_url_uri ?_ ?_ ?_
      · intro c hc
        simp only [List.mem_cons, List.not_mem_nil, or_false] at hc
        rcases hc with rfl|rfl|rfl|rfl|rfl|rfl|rfl|rfl|rfl
        · decide
        · exact hpqv _ (by simp)
        · exact hpqv _ (by simp)
        · exact hpqv _ (by simp)
        · exact isPathqChar_upperN_of_lower hlow
        · exact hpqv _ (by simp)
        · exact hpqv _ (by simp)
        · exact hpqv _ (by simp)
        · exact hpqv _ (by simp)
      · intro c hc
        simp only [List.mem_cons, List.not_mem_nil, or_false] at hc
        rcases hc with rfl|rfl|rfl|rfl|rfl|rfl|rfl|rfl|rfl
        · decide
        · exact hclassq _ hc1
        · exact hclassq _ hc2
        · exact hclassq _ hc3
        · exact upperN_ne_qm_of_lower hlow
        · exact hclassq _ hc5
        · exact hclassq _ hc6
        · exact hdigq _ hk1
        · exact hdigq _ hk2
      · simp [ror.validate_check_digit, ror.rorCapture,
          isRorClassChar_upperN_false hlow]
    · simp only [List.get, List.set] at hlow ⊢
      refine parse_ror_url_uri ?_ ?_ ?_
      · intro c hc
        simp only [List.mem_cons, List.not_mem_nil, or_false] at hc
        rcases hc with rfl|rfl|rfl|rfl|rfl|rfl|rfl|rfl|rfl
        · decide
        · exact hpqv _ (by simp)
        · exact hpqv _ (by simp)
        · exact hpqv _ (by simp)
        · exact hpqv _ (by simp)
        · exact isPathqChar_upperN_of_lower hlow
        · exact hpqv _ (by simp)
        · exact hpqv _ (by simp)
        · exact hpqv _ (by simp)
      · intro c hc
        simp only [List.mem_cons, List.not_mem_nil, or_false] at hc
        rcases hc with rfl|rfl|rfl|rfl|rfl|rfl|rfl|rfl|rfl
        · decide
        · exact hclassq _ hc1
        · exact hclassq _ hc2
        · exact hclassq _ hc3
        · exact hclassq _ hc4
        · exact upperN_ne_qm_of_lower hlow
        · exact hclassq _ hc6
        · exact hdigq _ hk1
        · exact hdigq _ hk2
      · simp [ror.validate_check_digit, ror.rorCapture,
          isRorClassChar_upperN_false hlow]
    · simp only [List.get, List.set] at hlow ⊢
      refine parse_ror_url_uri ?_ ?_ ?_
      · intro c hc
        simp only [List.mem_cons, List.not_mem_nil, or_false] at hc
        rcases hc with rfl|rfl|rfl|rfl|rfl|rfl|rfl|rfl|rfl
        · decide
        · exact hpqv _ (by simp)
        · exact hpqv _ (by simp)
        · exact hpqv _ (by simp)
        · exact hpqv _ (by simp)
        · exact hpqv _ (by simp)
        · exact isPathqChar_upperN_of_lower hlow
        · exact hpqv _ (by simp)
        · exact hpqv _ (by simp)
      · intro c hc
        simp only [List.mem_cons, List.not_mem_nil, or_false] at hc
        rcases hc with rfl|rfl|rfl|rfl|rfl|rfl|rfl|rfl|rfl
        · decide
        · exact hclassq _ hc1
        · exact hclassq _ hc2
        · exact hclassq _ hc3
        · exact hclassq _ hc4
        · exact hclassq _ hc5
        · exact upperN_ne_qm_of_lower hlow
        · exact hdigq _ hk1
        · exact hdigq _ hk2
      · simp [ror.validate_check_digit, ror.rorCapture,
          isRorClassChar_upperN_false hlow]
    · simp [List.get] at hlow
      rw [isLowerN_iff] at hlow
      rw [isDigitN_iff] at hk1
      omega
    · simp [List.get] at hlow
      rw [isLowerN_iff] at hlow
      rw [isDigitN_iff] at hk2
      omega

/-- Witness for C9: upper-casing the 't' of "02twcfp32" yields a URI. -/
theorem ror_parse_and_case_sensitivity_witness :
    ror.try_parse (IdentifierParseInput.build (str "https://ror.org/02Twcfp32")) = none ∧
    Identifier.parse (str "https://ror.org/02Twcfp32") =
      Identifier.Uri (str "https://ror.org/02Twcfp32") := by
  have h := ror_parse_and_case_sensitivity.2 (str "02twcfp32") 2 (by decide)
    (by decide) (by decide)
  have heq : str "https://ror.org/" ++ (str "02twcfp32").set 2
      (upperN ((str "02twcfp32").get ⟨2, by decide⟩)) =
      str "https://ror.org/02Twcfp32" := by decide
  rw [heq] at h
  exact h

/-! ## ORCID bad checksums fall through (C8) -/

theorem upperN_schemeChar_ne_colon {c : Nat} (h : httpuri.isSchemeChar c = true) :
    ¬ upperN c = 58 := by
  simp [httpuri.isSchemeChar, isAlphaN, isUpperN, isLowerN, isDigitN, ch] at h
  by_cases hl : isLowerN c = true
  · rw [upperN_of_lower_eq hl]
    rw [isLowerN_iff] at hl
    omega
  · have : upperN c = c := by simp [upperN, hl]
    rw [this]
    rw [isLowerN_iff] at hl
    omega

theorem isbn.strip_urn_none {sch : List Nat} (rest' : List Nat)
    (hsch : sch.all httpuri.isSchemeChar = true) :
    dropLit (str "URN:ISBN:") (toUppercase sch ++ (str "://" ++ rest')) = none := by
  match hd : dropLit (str "URN:ISBN:") (toUppercase sch ++ (str "://" ++ rest')) with
  | none => rfl
  | some r =>
    exfalso
    have hdec := dropLit_eq_some hd
    match sch with
    | [] => simp [toUppercase, str, ch] at hdec
    | [a] => simp [toUppercase, str, ch] at hdec
    | [a, b] => simp [toUppercase, str, ch] at hdec
    | [a, b, c] => simp [toUppercase, str, ch] at hdec
    | a :: b :: c :: d :: tl =>
      simp only [toUppercase, List.map_cons, List.cons_append, str, ch] at hdec
      have hd4 : httpuri.isSchemeChar d = true := by
        simp only [List.all_cons, Bool.and_eq_true] at hsch
        exact hsch.2.2.2.1
      have := upperN_schemeChar_ne_colon hd4
      simp [str, ch] at hdec
      omega

theorem isbn.try_parse_full_uri {sch auth pq : List Nat}
    (hsch : sch.all httpuri.isSchemeChar = true) :
    isbn.try_parse (IdentifierParseInput.build
      (sch ++ str "://" ++ auth ++ pq)) = none := by
  have hup : toUppercase (sch ++ str "://" ++ auth ++ pq) =
      toUppercase sch ++ (str "://" ++ toUppercase (auth ++ pq)) := by
    rw [List.append_assoc, List.append_assoc, toUppercase_append]
    rw [toUppercase_append,
      show toUppercase (str "://") = str "://" from by decide]
  have hstrip := isbn.strip_urn_none (toUppercase (auth ++ pq)) hsch
  have hcolon : (58 : Nat) ∈ sch ++ str "://" ++ auth ++ pq := by
    rw [List.append_assoc, List.append_assoc]
    refine List.mem_append_right _ ?_
    rw [show str "://" ++ (auth ++ pq) = 58 :: (47 :: 47 :: (auth ++ pq)) from by
      simp [str, ch]]
    exact List.mem_cons_self _ _
  have hdig : isbn.str_to_digits (sch ++ str "://" ++ auth ++ pq) = none := by
    have hany : (sch ++ str "://" ++ auth ++ pq).any
        (fun c => ¬ (isDigitN c || c = ch 'X' || c = ch 'x' ||
                     c = ch ' ' || c = ch '-')) = true := by
      rw [List.any_eq_true]
      exact ⟨58, hcolon, by decide⟩
    unfold isbn.str_to_digits
    rw [if_pos hany]
  simp only [isbn.try_parse, IdentifierParseInput.build]
  rw [hup, hstrip, hdig]

/-- C8 counterexample: a URI whose lower-cased host is exactly "orcid.org"
and whose upper-cased path matches the ORCID shape with a bad check digit,
for which `Identifier::parse` returns a DOI, not the generic URI kind: the
DOI recognizer (which runs first and looks only at the raw string) claims
the input via the encoded slash in its userinfo. -/
theorem orcid_bad_checksum_claim_fails :
    (IdentifierParseInput.build
      (str "https://10.5555%2f@orcid.org/0000-0002-1694-2330")).host_lowercase =
        some (str "orcid.org") ∧
    (IdentifierParseInput.build
      (str "https://10.5555%2f@orcid.org/0000-0002-1694-2330")).path_no_slash_uppercase =
        some (str "0000-0002-1694-2330") ∧
    (orcid.orcidCapture (str "0000-0002-1694-2330")).isSome = true ∧
    orcid.validate_check_digit (str "0000-0002-1694-2330") = false ∧
    Identifier.parse (str "https://10.5555%2f@orcid.org/0000-0002-1694-2330") =
      Identifier.Doi (str "10.5555") (str "@orcid.org/0000-0002-1694-2330") := by
  decide

/-- C8 (amended): for every input URI whose lower-cased host is exactly
"orcid.org" and whose upper-cased path matches the ORCID shape but fails
the checksum, and which the DOI recognizer (which runs first, on the raw
string) declines, `Identifier::parse` returns the generic URI kind — the
ORCID recognizer declines and the parse as a whole does not fail. -/
theorem orcid_bad_checksum_falls_to_uri {s P : List Nat}
    (hpathu : (IdentifierParseInput.build s).path_no_slash_uppercase = some P)
    (hhost : (IdentifierParseInput.build s).host_lowercase = some (str "orcid.org"))
    (hshape : (orcid.orcidCapture P).isSome = true)
    (hbad : orcid.validate_check_digit P = false)
    (hdoi : doi.try_parse (IdentifierParseInput.build s) = none) :
    Identifier.parse s = Identifier.Uri s := by
  have horcid : orcid.try_parse (IdentifierParseInput.build s) = none := by
    simp [orcid.try_parse, hpathu, hhost, orcid.HOST, hbad]
  have hror : ror.try_parse (IdentifierParseInput.build s) = none := by
    simp [ror.try_parse, hhost, ror.HOST, str, ch]
  cases hu : (IdentifierParseInput.build s).uri with
  | none =>
    simp [IdentifierParseInput.host_lowercase, IdentifierParseInput.host, hu] at hhost
  | some U =>
    have hup : httpuri.uriParse s = some U := hu
    have hauth : U.authority ≠ none := by
      intro hn
      simp [IdentifierParseInput.host_lowercase, IdentifierParseInput.host, hu,
        httpuri.host, hn] at hhost
    have hisbn : isbn.try_parse (IdentifierParseInput.build s) = none := by
      cases hsch : U.scheme with
      | none =>
        exfalso
        have hpq : U.pathq = [] := httpuri.uriParse_scheme_none hup hsch hauth
        simp only [IdentifierParseInput.path_no_slash_uppercase,
          IdentifierParseInput.path_no_slash, hu, httpuri.path, hpq,
          List.takeWhile_nil, dropLit, Option.map_some'] at hpathu
        have : P = [] := by
          cases hpathu
          rfl
        rw [this] at hshape
        simp [orcid.orcidCapture] at hshape
      | some sch =>
        obtain ⟨auth, hA, hschemechars, hdec⟩ := httpuri.uriParse_scheme_some hup hsch
        rw [show s = sch ++ str "://" ++ auth ++ U.pathq from hdec]
        exact isbn.try_parse_full_uri hschemechars
    have huritp : uri.try_parse (IdentifierParseInput.build s) =
        some (Identifier.Uri s) := by
      unfold uri.try_parse
      rw [hu]
      simp only [Option.map_some']
      rw [httpuri.uriToString_uriParse hup]
    exact parse_eq_of_uri hdoi horcid hisbn hror huritp

/-- Witness for C8 (amended): the ordinary bad-checksum ORCID URL. -/
theorem orcid_bad_checksum_falls_to_uri_witness :
    Identifier.parse (str "https://orcid.org/0000-0002-1694-2330") =
      Identifier.Uri (str "https://orcid.org/0000-0002-1694-2330") :=
  @orcid_bad_checksum_falls_to_uri (str "https://orcid.org/0000-0002-1694-2330")
    (str "0000-0002-1694-2330")
    (by decide) (by decide) (by decide) (by decide) (by decide)


/-! ## UTF-8 round trip -/

theorem utf8DecodeGo_fuel_irrel :
    ∀ f1 f2 bs, bs.length ≤ f1 → bs.length ≤ f2 →
      utf8DecodeGo f1 bs = utf8DecodeGo f2 bs := by
  intro f1
  induction f1 with
  | zero =>
    intro f2 bs h1 h2
    match bs with
    | [] =>
      match f2 with
      | 0 => rfl
      | _ + 1 => rfl
    | _ :: _ => simp at h1
  | succ n ih =>
    intro f2 bs h1 h2
    match bs with
    | [] =>
      match f2 with
      | 0 => rfl
      | _ + 1 => rfl
    | b :: rest =>
      match f2 with
      | 0 => simp at h2
      | m + 1 =>
        simp only [List.length_cons, Nat.add_le_add_iff_right] at h1 h2
        show utf8DecodeGo (n + 1) (b :: rest) = utf8DecodeGo (m + 1) (b :: rest)
        rw [utf8DecodeGo, utf8DecodeGo]
        rw [ih m rest h1 h2,
          ih m (rest.drop 1) (by simp; omega) (by simp; omega),
          ih m (rest.drop 2) (by simp; omega) (by simp; omega),
          ih m (rest.drop 3) (by simp; omega) (by simp; omega)]

theorem utf8EncodeChar_decode {c : Nat}
    (hv : c < 0xD800 ∨ (0xE000 ≤ c ∧ c < 0x110000)) (rest : List Nat) :
    utf8Decode (utf8EncodeChar c ++ rest) = (utf8Decode rest).map (c :: ·) := by
  have hlt : c < 0x110000 := by rcases hv with h | ⟨_, h⟩ <;> omega
  unfold utf8EncodeChar
  split_ifs with h1 h2 h3
  · -- one byte
    show utf8Decode (c :: rest) = _
    unfold utf8Decode
    simp only [List.length_cons]
    rw [utf8DecodeGo, if_pos h1]
  · -- two bytes
    show utf8Decode ((0xC0 + c / 64) :: (0x80 + c % 64) :: rest) = _
    unfold utf8Decode
    simp only [List.length_cons]
    rw [utf8DecodeGo]
    rw [if_neg (by omega)]
    rw [if_pos (by simp only [Bool.and_eq_true, decide_eq_true_eq]; omega)]
    rw [if_pos (by
      simp only [List.headI, List.length_cons, isCont, Bool.and_eq_true,
        decide_eq_true_eq]
      omega)]
    simp only [List.headI, List.drop_succ_cons, List.drop_zero]
    rw [utf8DecodeGo_fuel_irrel (rest.length + 1) rest.length _
      (by omega) (by omega)]
    have : (0xC0 + c / 64 - 0xC0) * 64 + (0x80 + c % 64 - 0x80) = c := by omega
    rw [this]
  · -- three bytes
    show utf8Decode ((0xE0 + c / 4096) :: (0x80 + c / 64 % 64) :: (0x80 + c % 64) :: rest) = _
    unfold utf8Decode
    simp only [List.length_cons]
    rw [utf8DecodeGo]
    rw [if_neg (by omega)]
    rw [if_neg (by simp only [Bool.and_eq_true, decide_eq_true_eq]; omega)]
    rw [if_pos (by simp only [Bool.and_eq_true, decide_eq_true_eq]; omega)]
    rw [if_pos (by
      simp only [List.headI, List.length_cons, List.drop_succ_cons, List.drop_zero,
        isCont, Bool.and_eq_true, Bool.not_eq_true', Bool.and_eq_false_iff,
        decide_eq_true_eq, decide_eq_false_iff_not]
      refine ⟨⟨⟨⟨by omega, by omega⟩, by omega⟩, by omega⟩, ?_⟩
      omega)]
    simp only [List.headI, List.drop_succ_cons, List.drop_zero]
    rw [utf8DecodeGo_fuel_irrel (rest.length + 1 + 1) rest.length _
      (by omega) (by omega)]
    have : (0xE0 + c / 4096 - 0xE0) * 4096 + (0x80 + c / 64 % 64 - 0x80) * 64 +
        (0x80 + c % 64 - 0x80) = c := by omega
    rw [this]
  · -- four bytes
    show utf8Decode ((0xF0 + c / 262144) :: (0x80 + c / 4096 % 64) ::
      (0x80 + c / 64 % 64) :: (0x80 + c % 64) :: rest) = _
    unfold utf8Decode
    simp only [List.length_cons]
    rw [utf8DecodeGo]
    rw [if_neg (by omega)]
    rw [if_neg (by simp only [Bool.and_eq_true, decide_eq_true_eq]; omega)]
    rw [if_neg (by simp only [Bool.and_eq_true, decide_eq_true_eq]; omega)]
    rw [if_pos (by simp only [Bool.and_eq_true, decide_eq_true_eq]; omega)]
    rw [if_pos (by
      simp only [List.headI, List.length_cons, List.drop_succ_cons, List.drop_zero,
        isCont, Bool.and_eq_true, decide_eq_true_eq]
      omega)]
    simp only [List.headI, List.drop_succ_cons, List.drop_zero]
    rw [utf8DecodeGo_fuel_irrel (rest.length + 1 + 1 + 1) rest.length _
      (by omega) (by omega)]
    have : (0xF0 + c / 262144 - 0xF0) * 262144 + (0x80 + c / 4096 % 64 - 0x80) * 4096 +
        (0x80 + c / 64 % 64 - 0x80) * 64 + (0x80 + c % 64 - 0x80) = c := by omega
    rw [this]

theorem utf8Encode_cons (c : Nat) (cs : List Nat) :
    utf8Encode (c :: cs) = utf8EncodeChar c ++ utf8Encode cs := by
  simp [utf8Encode]

theorem utf8Encode_append (a b : List Nat) :
    utf8Encode (a ++ b) = utf8Encode a ++ utf8Encode b := by
  simp [utf8Encode]

theorem utf8Encode_decode {s : List Nat} (hv : ValidStr s) :
    utf8Decode (utf8Encode s) = some s := by
  induction s with
  | nil => rfl
  | cons c cs ih =>
    have hc : c < 0xD800 ∨ (0xE000 ≤ c ∧ c < 0x110000) := hv c (by simp)
    have hcs : ValidStr cs := fun x hx => hv x (by simp [hx])
    rw [utf8Encode_cons, utf8EncodeChar_decode hc, ih hcs]
    rfl

theorem hexVal_lower_hexDigit : ∀ x < 16, hexVal (lowerN (hexDigit x)) = some x := by
  decide

theorem pdb_cons_ne37 {x : Nat} {rest : List Nat} (h : ¬ x = 37) :
    percentDecodeBytes (x :: rest) = x :: percentDecodeBytes rest := by
  rw [percentDecodeBytes.eq_def]
  simp only [if_neg h]

theorem pdb_esc {b : Nat} (tail : List Nat) (hb : b < 256) :
    percentDecodeBytes (37 :: lowerN (hexDigit (b / 16)) :: lowerN (hexDigit (b % 16)) :: tail) =
      b :: percentDecodeBytes tail := by
  rw [percentDecodeBytes.eq_def]
  simp only [if_pos]
  rw [hexVal_lower_hexDigit (b / 16) (by omega), hexVal_lower_hexDigit (b % 16) (by omega)]
  simp only []
  have : b / 16 * 16 + b % 16 = b := by omega
  rw [this]

theorem lowerN_ascii_lt {x : Nat} (h : x < 0x80) : lowerN x < 0x80 := by
  simp only [lowerN, isUpperN]
  split <;> rename_i hs
  · simp only [Bool.and_eq_true, decide_eq_true_eq] at hs
    omega
  · exact h

theorem utf8Encode_ascii {l : List Nat} (h : ∀ x ∈ l, x < 0x80) :
    utf8Encode l = l := by
  induction l with
  | nil => rfl
  | cons a l ih =>
    rw [utf8Encode_cons, ih (fun x hx => h x (by simp [hx]))]
    have : utf8EncodeChar a = [a] := by
      unfold utf8EncodeChar
      rw [if_pos (h a (by simp))]
    rw [this]
    rfl

theorem utf8EncodeChar_bytes_lt {c : Nat} (h : c < 0x110000) :
    ∀ b ∈ utf8EncodeChar c, b < 256 := by
  unfold utf8EncodeChar
  split_ifs <;> intro b hb <;> simp at hb
  · omega
  · rcases hb with rfl | rfl <;> omega
  · rcases hb with rfl | rfl | rfl <;> omega
  · rcases hb with rfl | rfl | rfl | rfl <;> omega

/-- Decoding the lower-cased escape rendering of a byte list recovers it. -/
theorem pdb_escBytes : ∀ (bs tail : List Nat), (∀ b ∈ bs, b < 256) →
    percentDecodeBytes
      ((bs.map (fun b => [37, lowerN (hexDigit (b / 16)), lowerN (hexDigit (b % 16))])).flatten
        ++ tail) = bs ++ percentDecodeBytes tail := by
  intro bs
  induction bs with
  | nil => intro tail _; simp
  | cons b bs ih =>
    intro tail h
    simp only [List.map_cons, List.flatten_cons, List.cons_append, List.append_assoc,
      List.nil_append]
    rw [pdb_esc _ (h b (by simp))]
    rw [ih tail (fun x hx => h x (by simp [hx]))]

theorem DO_NOT_ENCODE_ascii {c : Nat} (h : doi.DO_NOT_ENCODE c = true) :
    c < 0x80 ∧ ¬ c = 37 := by
  simp [doi.DO_NOT_ENCODE, doi.UNRESERVED_CHARACTERS, doi.RESERVED_CHARACTERS,
    isAlphaN, isUpperN, isLowerN, isDigitN, ch] at h
  omega

theorem toLowercase_flatten (L : List (List Nat)) :
    toLowercase L.flatten = (L.map toLowercase).flatten := by
  induction L with
  | nil => rfl
  | cons a L ih => simp [List.flatten_cons, toLowercase_append, ih]

theorem hexDigit_lower_ascii {x : Nat} (h : x < 16) : lowerN (hexDigit x) < 0x80 := by
  apply lowerN_ascii_lt
  simp only [hexDigit]
  split <;> omega

/-- Percent-decoding the lower-cased DOI percent-encoding of a
lower-case-stable valid string yields its UTF-8 bytes. -/
theorem pdb_enc_doi : ∀ {suf : List Nat}, toLowercase suf = suf → ValidStr suf →
    percentDecodeBytes (utf8Encode (toLowercase (doi.percent_encode_for_doi suf))) =
      utf8Encode suf := by
  intro suf
  induction suf with
  | nil => intro _ _; rfl
  | cons c cs ih =>
    intro hlow hval
    have hlowc : lowerN c = c := by
      have := congrArg List.headI hlow
      simpa [toLowercase] using this
    have hlowcs : toLowercase cs = cs := by
      have := congrArg List.tail hlow
      simpa [toLowercase] using this
    have hvc : c < 0xD800 ∨ (0xE000 ≤ c ∧ c < 0x110000) := hval c (by simp)
    have hvcs : ValidStr cs := fun x hx => hval x (by simp [hx])
    have hlt : c < 0x110000 := by rcases hvc with h | ⟨_, h⟩ <;> omega
    have hdist : doi.percent_encode_for_doi (c :: cs) =
        (if doi.DO_NOT_ENCODE c then [c]
         else ((utf8EncodeChar c).map
           (fun b => [ch '%', hexDigit (b / 16), hexDigit (b % 16)])).flatten) ++
        doi.percent_encode_for_doi cs := by
      simp [doi.percent_encode_for_doi]
    rw [hdist, toLowercase_append, utf8Encode_append]
    by_cases hdne : doi.DO_NOT_ENCODE c = true
    · rw [if_pos hdne]
      obtain ⟨hascii, hne37⟩ := DO_NOT_ENCODE_ascii hdne
      have h1 : toLowercase [c] = [c] := by simp [toLowercase, hlowc]
      rw [h1, utf8Encode_ascii (by intro x hx; simp at hx; omega),
        List.singleton_append, pdb_cons_ne37 hne37, ih hlowcs hvcs, utf8Encode_cons]
      have henc1 : utf8EncodeChar c = [c] := by
        unfold utf8EncodeChar
        rw [if_pos hascii]
      rw [henc1, List.singleton_append]
    · rw [if_neg hdne]
      have hesc : toLowercase (((utf8EncodeChar c).map
          (fun b => [ch '%', hexDigit (b / 16), hexDigit (b % 16)])).flatten) =
          ((utf8EncodeChar c).map
            (fun b => [37, lowerN (hexDigit (b / 16)), lowerN (hexDigit (b % 16))])).flatten := by
        rw [toLowercase_flatten, List.map_map]
        refine congrArg List.flatten (List.map_congr_left ?_)
        intro b _
        simp only [Function.comp, toLowercase, List.map_cons, List.map_nil, ch]
        rw [show lowerN '%'.toNat = 37 from by decide]
      rw [hesc]
      have hascii : ∀ x ∈ ((utf8EncodeChar c).map
          (fun b => [37, lowerN (hexDigit (b / 16)), lowerN (hexDigit (b % 16))])).flatten,
          x < 0x80 := by
        intro x hx
        rw [List.mem_flatten] at hx
        obtain ⟨l, hl, hxl⟩ := hx
        rw [List.mem_map] at hl
        obtain ⟨b, hb, rfl⟩ := hl
        have hb256 : b < 256 := utf8EncodeChar_bytes_lt hlt b hb
        simp only [List.mem_cons, List.not_mem_nil, or_false] at hxl
        rcases hxl with rfl | rfl | rfl
        · omega
        · exact hexDigit_lower_ascii (by omega)
        · exact hexDigit_lower_ascii (by omega)
      rw [utf8Encode_ascii hascii]
      rw [pdb_escBytes _ _ (utf8EncodeChar_bytes_lt hlt)]
      rw [ih hlowcs hvcs, utf8Encode_cons]

theorem pdb_append_no37 {a : List Nat} (b : List Nat) (h : ∀ x ∈ a, ¬ x = 37) :
    percentDecodeBytes (a ++ b) = a ++ percentDecodeBytes b := by
  induction a with
  | nil => rfl
  | cons x xs ih =>
    rw [List.cons_append, pdb_cons_ne37 (h x (by simp)),
      ih (fun y hy => h y (by simp [hy]))]
    rfl

theorem ValidStr_toLowercase {s : List Nat} (h : ValidStr s) :
    ValidStr (toLowercase s) := by
  intro c hc
  rw [toLowercase, List.mem_map] at hc
  obtain ⟨x, hx, rfl⟩ := hc
  have := h x hx
  simp only [lowerN, isUpperN]
  split <;> rename_i hs
  · simp only [Bool.and_eq_true, decide_eq_true_eq] at hs
    omega
  · exact this

theorem ValidStr_sub {s t : List Nat} (h : ValidStr s) (hsub : ∀ c ∈ t, c ∈ s) :
    ValidStr t := fun c hc => h c (hsub c hc)

theorem lowerN_eq_ten {c : Nat} (h : lowerN c = 10) : c = 10 := by
  simp only [lowerN, isUpperN] at h
  split at h <;> rename_i hs
  · simp only [Bool.and_eq_true, decide_eq_true_eq] at hs
    omega
  · exact h

theorem utf8DecodeGo_valid : ∀ fuel {bs out : List Nat},
    utf8DecodeGo fuel bs = some out → ValidStr out := by
  intro fuel
  induction fuel with
  | zero =>
    intro bs out h
    match bs with
    | [] =>
      simp only [utf8DecodeGo, Option.some.injEq] at h
      subst h
      intro c hc
      simp at hc
    | b :: rest => simp [utf8DecodeGo] at h
  | succ n ih =>
    intro bs out h
    match bs with
    | [] =>
      simp only [utf8DecodeGo, Option.some.injEq] at h
      subst h
      intro c hc
      simp at hc
    | b :: rest =>
      rw [utf8DecodeGo] at h
      split_ifs at h with h1 h2 h3 h4 h5 <;> try exact Option.noConfusion h
      · rw [Option.map_eq_some'] at h
        obtain ⟨out', hgo, rfl⟩ := h
        intro c hc
        rcases List.mem_cons.mp hc with rfl | hc'
        · left; omega
        · exact ih hgo c hc'
      · simp only [Bool.and_eq_true, decide_eq_true_eq, isCont] at h2 h3
        rw [Option.map_eq_some'] at h
        obtain ⟨out', hgo, rfl⟩ := h
        intro c hc
        rcases List.mem_cons.mp hc with rfl | hc'
        · left; omega
        · exact ih hgo c hc'
      · simp only [Bool.and_eq_true, decide_eq_true_eq] at h4
        simp only [isCont] at h
        split at h <;> rename_i hg
        · simp only [Bool.and_eq_true, Bool.not_eq_true', Bool.and_eq_false_iff,
            decide_eq_true_eq, decide_eq_false_iff_not] at hg
          rw [Option.map_eq_some'] at h
          obtain ⟨out', hgo, rfl⟩ := h
          intro c hc
          rcases List.mem_cons.mp hc with rfl | hc'
          · omega
          · exact ih hgo c hc'
        · exact Option.noConfusion h
      · simp only [Bool.and_eq_true, decide_eq_true_eq] at h5
        simp only [isCont] at h
        split at h <;> rename_i hg
        · simp only [Bool.and_eq_true, decide_eq_true_eq] at hg
          rw [Option.map_eq_some'] at h
          obtain ⟨out', hgo, rfl⟩ := h
          intro c hc
          rcases List.mem_cons.mp hc with rfl | hc'
          · right
            omega
          · exact ih hgo c hc'
        · exact Option.noConfusion h

theorem utf8Decode_valid {bs out : List Nat} (h : utf8Decode bs = some out) :
    ValidStr out := utf8DecodeGo_valid _ h

/-! ## ISBN: invariants of recognized values and re-parsing -/

/-- The characters an ISBN payload can contain. -/
def isIsbnChar (n : Nat) : Bool := isDigitN n || n = ch 'X'

/-- A well-formed stored ISBN payload: the rendering of a 13-element
digit sequence that passes the 13-digit validation. -/
def IsbnGood (v : List Nat) : Prop :=
  ∃ ds, v = isbn.digits_to_str ds ∧ isbn.validate_13_digit ds = true ∧
    ∀ d ∈ ds, d ≤ 10

theorem isbn.str_to_digits_le10 {l ds : List Nat}
    (h : isbn.str_to_digits l = some ds) : ∀ d ∈ ds, d ≤ 10 := by
  unfold isbn.str_to_digits at h
  split at h
  · exact Option.noConfusion h
  · simp only [Option.some.injEq] at h
    subst h
    intro d hd
    obtain ⟨c, hc, hfc⟩ := List.mem_filterMap.mp hd
    split at hfc <;> rename_i h1
    · simp only [Option.some.injEq] at hfc
      rw [isDigitN_iff] at h1
      omega
    · split at hfc <;> rename_i h2
      · simp only [Option.some.injEq] at hfc
        omega
      · exact Option.noConfusion hfc

theorem isbn.digits_to_str_chars {ds : List Nat} (h : ∀ d ∈ ds, d ≤ 10) :
    ∀ c ∈ isbn.digits_to_str ds, isIsbnChar c = true := by
  intro c hc
  obtain ⟨d, hd, hfd⟩ := List.mem_filterMap.mp hc
  have hd10 := h d hd
  split at hfd <;> rename_i h1
  · simp only [Option.some.injEq] at hfd
    subst hfd
    simp only [isIsbnChar, isDigitN, Bool.or_eq_true, Bool.and_eq_true,
      decide_eq_true_eq]
    omega
  · split at hfd <;> rename_i h2
    · simp only [Option.some.injEq] at hfd
      subst hfd
      simp [isIsbnChar, ch]
    · exact Option.noConfusion hfd

theorem isbn.digits_to_str_len {ds : List Nat} (h : ∀ d ∈ ds, d ≤ 10) :
    (isbn.digits_to_str ds).length = ds.length := by
  induction ds with
  | nil => rfl
  | cons d ds ih =>
    have hd := h d (by simp)
    have ih' := ih fun x hx => h x (by simp [hx])
    by_cases h9 : d ≤ 9
    · simp only [isbn.digits_to_str, List.filterMap_cons, if_pos h9] at ih' ⊢
      simp [ih']
    · have h10 : d = 10 := by omega
      subst h10
      simp only [isbn.digits_to_str, List.filterMap_cons] at ih' ⊢
      simp [ih']

open List in
theorem isbn.filterMap_render {ds : List Nat} (h : ∀ d ∈ ds, d ≤ 10) :
    (isbn.digits_to_str ds).filterMap (fun c =>
      if isDigitN c then some (c - 48)
      else if c = ch 'X' || c = ch 'x' then some 10
      else none) = ds := by
  induction ds with
  | nil => rfl
  | cons d ds ih =>
    have hd := h d (by simp)
    have ih' := ih fun x hx => h x (by simp [hx])
    by_cases h9 : d ≤ 9
    · have hdig : isDigitN (48 + d) = true := by
        rw [isDigitN_iff]; omega
      simp only [isbn.digits_to_str, List.filterMap_cons, if_pos h9] at ih' ⊢
      simp only [List.filterMap_cons, hdig, if_pos]
      rw [ih', Nat.add_sub_cancel_left]
    · have h10 : d = 10 := by omega
      subst h10
      simp only [isbn.digits_to_str] at ih' ⊢
      simpa [ch, isDigitN] using ih'

theorem isbn.str_to_digits_render {ds : List Nat} (h : ∀ d ∈ ds, d ≤ 10) :
    isbn.str_to_digits (isbn.digits_to_str ds) = some ds := by
  have hch := isbn.digits_to_str_chars h
  unfold isbn.str_to_digits
  rw [if_neg ?hany]
  case hany =>
    rw [List.any_eq_true]
    rintro ⟨c, hc, hbad⟩
    have := hch c hc
    simp only [isIsbnChar, Bool.or_eq_true, decide_eq_true_eq] at this
    rw [decide_eq_true_eq] at hbad
    apply hbad
    rcases this with hd | hx
    · simp [hd]
    · simp [hx]
  rw [isbn.filterMap_render h]

theorem isbn.validate_13_len {ds : List Nat}
    (h : isbn.validate_13_digit ds = true) : ds.length = 13 := by
  unfold isbn.validate_13_digit at h
  simp only [Bool.and_eq_true, decide_eq_true_eq] at h
  exact h.1

theorem isbn.ten_to_thirteen_valid {ds : List Nat} (hlen : ds.length = 10) :
    isbn.validate_13_digit (isbn.ten_digit_to_thirteen_digit ds) = true := by
  unfold isbn.ten_digit_to_thirteen_digit isbn.validate_13_digit
  have hni : ([9, 7, 8] ++ ds.take 9).length = 12 := by simp [hlen]
  simp only [Bool.and_eq_true, decide_eq_true_eq]
  refine ⟨?_, ?_⟩
  · simp [List.length_take, hlen]
  · have hab : ∀ b, (([9, 7, 8] ++ ds.take 9) ++ b).take 12 =
        [9, 7, 8] ++ ds.take 9 := fun b => List.take_left' hni
    have hg : (([9, 7, 8] ++ ds.take 9) ++
        [isbn.generate_13_digit_checksum ([9, 7, 8] ++ ds.take 9)]).getD 12 0 =
        isbn.generate_13_digit_checksum ([9, 7, 8] ++ ds.take 9) := by
      rw [List.getD_eq_getElem?_getD, List.getElem?_append_right hni.le]
      simp only [show (12:Nat) - ([9, 7, 8] ++ ds.take 9).length = 0 from by omega]
      rfl
    rw [hg]
    unfold isbn.generate_13_digit_checksum
    rw [hab, List.take_of_length_le hni.le]

theorem isbn.ten_to_thirteen_le10 {ds : List Nat} (h : ∀ d ∈ ds, d ≤ 10) :
    ∀ d ∈ isbn.ten_digit_to_thirteen_digit ds, d ≤ 10 := by
  intro d hd
  unfold isbn.ten_digit_to_thirteen_digit at hd
  rcases List.mem_append.mp hd with hmem | hgen
  · rcases List.mem_append.mp hmem with h3 | htake
    · simp only [List.mem_cons, List.not_mem_nil, or_false] at h3
      omega
    · exact h d (List.take_subset _ _ htake)
  · rw [List.mem_singleton] at hgen
    rw [hgen]
    unfold isbn.generate_13_digit_checksum
    omega

theorem isbn.try_parse_good_isbn {i : IdentifierParseInput} {v : List Nat}
    (h : isbn.try_parse i = some (Identifier.Isbn v)) : IsbnGood v := by
  simp only [isbn.try_parse] at h
  split at h <;> rename_i digits hsd
  · have hle := isbn.str_to_digits_le10 hsd
    split at h <;> rename_i h10
    · simp only [Option.some.injEq, Identifier.Isbn.injEq] at h
      have hlen : digits.length = 10 := by
        unfold isbn.validate_10_digit at h10
        simp only [Bool.and_eq_true, decide_eq_true_eq] at h10
        exact h10.1
      exact ⟨isbn.ten_digit_to_thirteen_digit digits, h.symm,
        isbn.ten_to_thirteen_valid hlen, isbn.ten_to_thirteen_le10 hle⟩
    · split at h <;> rename_i h13
      · simp only [Option.some.injEq, Identifier.Isbn.injEq] at h
        exact ⟨digits, h.symm, h13, hle⟩
      · exact Option.noConfusion h
  · exact Option.noConfusion h

theorem isIsbnChar_upper_stable {n : Nat} (h : isIsbnChar n = true) :
    upperN n = n := by
  simp only [isIsbnChar, isDigitN, Bool.or_eq_true, Bool.and_eq_true,
    decide_eq_true_eq] at h
  rcases h with hd | hx
  · have : isLowerN n = false := by
      rw [isLowerN]
      simp only [Bool.and_eq_false_iff, decide_eq_false_iff_not]
      omega
    simp [upperN, this]
  · subst hx
    decide

theorem isIsbnChar_lower {n : Nat} (h : isIsbnChar n = true) :
    (48 ≤ lowerN n ∧ lowerN n ≤ 57) ∨ lowerN n = 120 := by
  simp only [isIsbnChar, isDigitN, Bool.or_eq_true, Bool.and_eq_true,
    decide_eq_true_eq] at h
  rcases h with hd | hx
  · left
    simp only [lowerN, isUpperN]
    rw [if_neg (by simp only [Bool.and_eq_true, decide_eq_true_eq]; omega)]
    omega
  · subst hx
    right
    decide

theorem isbn.good_len {ds : List Nat} (hval : isbn.validate_13_digit ds = true)
    (hle : ∀ d ∈ ds, d ≤ 10) : (isbn.digits_to_str ds).length = 13 := by
  rw [isbn.digits_to_str_len hle, isbn.validate_13_len hval]

theorem isbn.upper_stable {v : List Nat}
    (hch : ∀ c ∈ v, isIsbnChar c = true) : toUppercase v = v :=
  map_id_of_mem fun c hc => isIsbnChar_upper_stable (hch c hc)

theorem isbn.try_parse_accept {i : IdentifierParseInput} {ds : List Nat}
    (hval : isbn.validate_13_digit ds = true) (hle : ∀ d ∈ ds, d ≤ 10)
    (hraw : i.raw = isbn.digits_to_str ds) :
    isbn.try_parse i = some (Identifier.Isbn (isbn.digits_to_str ds)) := by
  have hch := isbn.digits_to_str_chars hle
  have hlen := isbn.good_len hval hle
  obtain ⟨c, rest, hcons⟩ : ∃ c rest, isbn.digits_to_str ds = c :: rest := by
    match hv : isbn.digits_to_str ds with
    | [] => rw [hv] at hlen; simp at hlen
    | c :: rest => exact ⟨c, rest, rfl⟩
  have hc85 : ¬ ((85:Nat) = c) := by
    have := hch c (by rw [hcons]; simp)
    simp only [isIsbnChar, isDigitN, Bool.or_eq_true, Bool.and_eq_true,
      decide_eq_true_eq] at this
    have h88 : ch 'X' = 88 := by decide
    rw [h88] at this
    omega
  have hstrip : dropLit (str "URN:ISBN:") (toUppercase (isbn.digits_to_str ds)) = none := by
    rw [isbn.upper_stable hch, hcons]
    show dropLit (85 :: str "RN:ISBN:") (c :: rest) = none
    unfold dropLit
    rw [if_neg hc85]
  simp only [isbn.try_parse, hraw, hstrip]
  rw [isbn.str_to_digits_render hle]
  have h10 : isbn.validate_10_digit ds = false := by
    unfold isbn.validate_10_digit
    simp only [Bool.and_eq_false_iff, decide_eq_false_iff_not]
    left
    rw [isbn.validate_13_len hval]
    omega
  simp [h10, hval]

theorem isbn.try_parse_urn_accept {i : IdentifierParseInput} {ds : List Nat}
    (hval : isbn.validate_13_digit ds = true) (hle : ∀ d ∈ ds, d ≤ 10)
    (hraw : i.raw = str "urn:isbn:" ++ isbn.digits_to_str ds) :
    isbn.try_parse i = some (Identifier.Isbn (isbn.digits_to_str ds)) := by
  have hch := isbn.digits_to_str_chars hle
  have hstrip : dropLit (str "URN:ISBN:") (toUppercase (str "urn:isbn:" ++ isbn.digits_to_str ds)) =
      some (isbn.digits_to_str ds) := by
    rw [toUppercase_append, isbn.upper_stable hch,
      show toUppercase (str "urn:isbn:") = str "URN:ISBN:" from by decide]
    exact dropLit_append _ _
  simp only [isbn.try_parse, hraw, hstrip]
  rw [isbn.str_to_digits_render hle]
  have h10 : isbn.validate_10_digit ds = false := by
    unfold isbn.validate_10_digit
    simp only [Bool.and_eq_false_iff, decide_eq_false_iff_not]
    left
    rw [isbn.validate_13_len hval]
    omega
  simp [h10, hval]

theorem doi.declines_urn_isbn_doi (v : List Nat) :
    doi.try_parse (IdentifierParseInput.build (str "urn:isbn:" ++ v)) = none := by
  have hlc : toLowercase (str "urn:isbn:" ++ v) =
      str "urn:isbn:" ++ toLowercase v := by
    rw [toLowercase_append,
      show toLowercase (str "urn:isbn:") = str "urn:isbn:" from by decide]
  have hcap : doi.doiStrictCapture (str "urn:isbn:" ++ toLowercase v) = none := by
    simp [doi.doiStrictCapture, str, ch]
  have hstrip : doi.remove_doi_prefixes (str "urn:isbn:" ++ toLowercase v) =
      str "urn:isbn:" ++ toLowercase v := by
    simp [doi.remove_doi_prefixes, doi.stripFirstAlt, doi.stripFirstHostAlt,
      doi.URI_PREFIXES_SCHEME, doi.URI_PREFIXES_HOST, doi.hostPat, doi.dropPat,
      dropLit, str]
  have hre : doi.doiReMatch (str "urn:isbn:" ++ toLowercase v) = false := by
    simp [doi.doiReMatch, str, ch]
  simp only [doi.try_parse, IdentifierParseInput.build, hlc, hcap, hstrip, hre,
    Option.isSome_none, Bool.false_eq_true, if_false]

theorem doi.try_parse_isbn_chars {v : List Nat}
    (hch : ∀ c ∈ v, isIsbnChar c = true) (hlen : 3 ≤ v.length) :
    doi.try_parse (IdentifierParseInput.build v) = none := by
  match v, hlen with
  | a :: b :: c :: v3, _ =>
  have ha := isIsbnChar_lower (hch a (by simp))
  have hb := isIsbnChar_lower (hch b (by simp))
  have hc := isIsbnChar_lower (hch c (by simp))
  have hlv : toLowercase (a :: b :: c :: v3) =
      lowerN a :: lowerN b :: lowerN c :: toLowercase v3 := by
    simp [toLowercase]
  have hcap : doi.doiStrictCapture
      (lowerN a :: lowerN b :: lowerN c :: toLowercase v3) = none := by
    have hcond : (decide (lowerN a = ch '1') && decide (lowerN b = ch '0') &&
        decide (lowerN c = ch '.')) = false := by
      have h46 : ¬ (lowerN c = ch '.') := by
        show ¬ (lowerN c = 46)
        omega
      simp [h46]
    unfold doi.doiStrictCapture
    simp only [hcond, Bool.false_eq_true, if_false]
  have h104 : ¬ ((104:Nat) = lowerN a) := by omega
  have h100 : ¬ ((100:Nat) = lowerN a) := by omega
  have h117 : ¬ ((117:Nat) = lowerN a) := by omega
  have h105 : ¬ ((105:Nat) = lowerN a) := by omega
  have hstrip : doi.remove_doi_prefixes
      (lowerN a :: lowerN b :: lowerN c :: toLowercase v3) =
      lowerN a :: lowerN b :: lowerN c :: toLowercase v3 := by
    simp [doi.remove_doi_prefixes, doi.stripFirstAlt, doi.stripFirstHostAlt,
      doi.URI_PREFIXES_SCHEME, doi.URI_PREFIXES_HOST, doi.hostPat, doi.dropPat,
      dropLit, str, h104, h100, h117, h105]
  have hre : doi.doiReMatch
      (lowerN a :: lowerN b :: lowerN c :: toLowercase v3) = false := by
    unfold doi.doiReMatch
    have h46 : ¬ (lowerN c = ch '.') := by
      show ¬ (lowerN c = 46)
      omega
    simp [h46]
  simp only [doi.try_parse, IdentifierParseInput.build, hlv, hcap, hstrip, hre,
    Option.isSome_none, Bool.false_eq_true, if_false]

theorem isIsbnChar_auth {n : Nat} (h : isIsbnChar n = true) :
    httpuri.isAuthChar n = true := by
  simp only [isIsbnChar, Bool.or_eq_true, decide_eq_true_eq] at h
  rcases h with hd | hx
  · simp [httpuri.isAuthChar, httpuri.isPchar, httpuri.isUnreserved, hd]
  · subst hx
    decide

theorem httpuri.uriParse_isbn {v : List Nat}
    (hch : ∀ c ∈ v, isIsbnChar c = true) (hne : v ≠ []) :
    httpuri.uriParse v = some ⟨none, some v, []⟩ := by
  obtain ⟨c, rest, rfl⟩ := List.exists_cons_of_ne_nil hne
  have hcch := hch c (by simp)
  have hc47 : ¬ (c = ch '/') := by
    simp only [isIsbnChar, isDigitN, Bool.or_eq_true, Bool.and_eq_true,
      decide_eq_true_eq, show ch 'X' = 88 from by decide] at hcch
    show ¬ (c = 47)
    omega
  have hno58 : ∀ x ∈ c :: rest, ¬ (x = 58) := by
    intro x hx
    have := hch x hx
    simp only [isIsbnChar, isDigitN, Bool.or_eq_true, Bool.and_eq_true,
      decide_eq_true_eq, show ch 'X' = 88 from by decide] at this
    omega
  have htw : (c :: rest).takeWhile (fun x => x ≠ ch ':') = c :: rest := by
    rw [List.takeWhile_eq_self_iff]
    intro x hx
    simpa [ch] using hno58 x hx
  have hsep : httpuri.splitSchemeSep (c :: rest) = none := by
    unfold httpuri.splitSchemeSep
    rw [htw]
    simp only [List.drop_length]
    rfl
  have hauth : (c :: rest).all httpuri.isAuthChar = true :=
    List.all_eq_true.mpr fun x hx => isIsbnChar_auth (hch x hx)
  simp only [httpuri.uriParse]
  rw [if_neg hc47, hsep]
  simp only [hauth, if_true]

theorem orcid.try_parse_isbn {v : List Nat}
    (hch : ∀ c ∈ v, isIsbnChar c = true) (hlen : v.length = 13) :
    orcid.try_parse (IdentifierParseInput.build v) = none := by
  have hne : v ≠ [] := by
    intro h
    rw [h] at hlen
    simp at hlen
  have huri := httpuri.uriParse_isbn hch hne
  have hbuild : IdentifierParseInput.build v = ⟨v, some ⟨none, some v, []⟩⟩ := by
    simp [IdentifierParseInput.build, huri]
  have hnoat : v.contains (ch '@') = false := by
    have hm : ch '@' ∉ v := by
      intro hm
      have := hch _ hm
      simp only [isIsbnChar, isDigitN, Bool.or_eq_true, Bool.and_eq_true,
        decide_eq_true_eq, show ch 'X' = 88 from by decide,
        show ch '@' = 64 from by decide] at this
      omega
    simpa using hm
  have htw : v.takeWhile (fun x => x ≠ ch ':') = v := by
    rw [List.takeWhile_eq_self_iff]
    intro x hx
    have := hch x hx
    simp only [isIsbnChar, isDigitN, Bool.or_eq_true, Bool.and_eq_true,
      decide_eq_true_eq, show ch 'X' = 88 from by decide] at this
    rw [decide_eq_true_eq]
    show ¬ x = 58
    omega
  have hhost : (⟨v, some ⟨none, some v, []⟩⟩ :
      IdentifierParseInput).host_lowercase = some (toLowercase v) := by
    simp only [IdentifierParseInput.host_lowercase, IdentifierParseInput.host,
      httpuri.host, hnoat, Bool.false_eq_true, if_false]
    rw [htw]
    rfl
  have hpns : (⟨v, some ⟨none, some v, []⟩⟩ :
      IdentifierParseInput).path_no_slash_uppercase = some [] := by
    simp [IdentifierParseInput.path_no_slash_uppercase,
      IdentifierParseInput.path_no_slash, httpuri.path, dropLit, str, toUppercase]
  have hnothost : ¬ (toLowercase v = orcid.HOST) := by
    intro h
    have := congrArg List.length h
    simp only [toLowercase, List.length_map, hlen] at this
    rw [show (orcid.HOST).length = 9 from by decide] at this
    omega
  unfold orcid.try_parse
  rw [hbuild, hpns, hhost]
  simp only [hnothost, if_false]

theorem httpuri.uriParse_urn_isbn {v : List Nat}
    (hch : ∀ c ∈ v, isIsbnChar c = true) :
    httpuri.uriParse (str "urn:isbn:" ++ v) =
      some ⟨none, some (str "urn:isbn:" ++ v), []⟩ := by
  have hv : v.all httpuri.isAuthChar = true :=
    List.all_eq_true.mpr fun x hx => isIsbnChar_auth (hch x hx)
  have hauth : (str "urn:isbn:" ++ v).all httpuri.isAuthChar = true := by
    rw [List.all_append, Bool.and_eq_true]
    exact ⟨by decide, hv⟩
  simp only [httpuri.uriParse, httpuri.splitSchemeSep, str, ch, dropLit,
    List.cons_append, List.nil_append]
  simp [List.takeWhile_cons]
  refine ⟨by decide, by decide, by decide, by decide, by decide, by decide,
    by decide, by decide, by decide, fun x hx => isIsbnChar_auth (hch x hx)⟩

theorem orcid.declines_urn_isbn_orcid {v : List Nat}
    (hch : ∀ c ∈ v, isIsbnChar c = true) :
    orcid.try_parse (IdentifierParseInput.build (str "urn:isbn:" ++ v)) = none := by
  have huri := httpuri.uriParse_urn_isbn hch
  have hbuild : IdentifierParseInput.build (str "urn:isbn:" ++ v) =
      ⟨str "urn:isbn:" ++ v, some ⟨none, some (str "urn:isbn:" ++ v), []⟩⟩ := by
    simp [IdentifierParseInput.build, huri]
  have hnoat : (str "urn:isbn:" ++ v).contains (ch '@') = false := by
    have hm : ch '@' ∉ str "urn:isbn:" ++ v := by
      intro hm
      rcases List.mem_append.mp hm with hl | hr
      · simp [str, ch] at hl
      · have := hch _ hr
        simp only [isIsbnChar, isDigitN, Bool.or_eq_true, Bool.and_eq_true,
          decide_eq_true_eq, show ch 'X' = 88 from by decide,
          show ch '@' = 64 from by decide] at this
        omega
    simpa using hm
  have htw : (str "urn:isbn:" ++ v).takeWhile (fun x => x ≠ ch ':') =
      str "urn" := by
    simp [str, ch, List.takeWhile_cons]
  have hhost : (⟨str "urn:isbn:" ++ v, some ⟨none, some (str "urn:isbn:" ++ v), []⟩⟩ :
      IdentifierParseInput).host_lowercase = some (str "urn") := by
    simp only [IdentifierParseInput.host_lowercase, IdentifierParseInput.host,
      httpuri.host, hnoat, Bool.false_eq_true, if_false]
    rw [htw]
    rfl
  have hpns : (⟨str "urn:isbn:" ++ v, some ⟨none, some (str "urn:isbn:" ++ v), []⟩⟩ :
      IdentifierParseInput).path_no_slash_uppercase = some [] := by
    simp [IdentifierParseInput.path_no_slash_uppercase,
      IdentifierParseInput.path_no_slash, httpuri.path, dropLit, str, toUppercase]
  unfold orcid.try_parse
  rw [hbuild, hpns, hhost]
  simp only [show ¬ (str "urn" = orcid.HOST) from by decide, if_false]

theorem isbn.reparse_isbn {v : List Nat} (hg : IsbnGood v) :
    Identifier.parse v = Identifier.Isbn v := by
  obtain ⟨ds, rfl, hval, hle⟩ := hg
  have hch := isbn.digits_to_str_chars hle
  have hlen := isbn.good_len hval hle
  exact parse_eq_of_isbn
    (doi.try_parse_isbn_chars hch (by omega))
    (orcid.try_parse_isbn hch hlen)
    (isbn.try_parse_accept hval hle (by simp [IdentifierParseInput.build]))

theorem isbn.reparse_urn {v : List Nat} (hg : IsbnGood v) :
    Identifier.parse (str "urn:isbn:" ++ v) = Identifier.Isbn v := by
  obtain ⟨ds, rfl, hval, hle⟩ := hg
  have hch := isbn.digits_to_str_chars hle
  exact parse_eq_of_isbn
    (doi.declines_urn_isbn_doi _)
    (orcid.declines_urn_isbn_orcid hch)
    (isbn.try_parse_urn_accept hval hle (by simp [IdentifierParseInput.build]))

theorem orcid.try_parse_some_inv_orcid {i : IdentifierParseInput} {v : List Nat}
    (h : orcid.try_parse i = some (Identifier.Orcid v)) :
    orcid.validate_check_digit v = true := by
  unfold orcid.try_parse at h
  match hp : i.path_no_slash_uppercase with
  | none => rw [hp] at h; exact Option.noConfusion h
  | some path =>
    rw [hp] at h
    simp only at h
    match hh : i.host_lowercase with
    | none => rw [hh] at h; exact Option.noConfusion h
    | some x =>
      rw [hh] at h
      simp only at h
      split at h <;> rename_i hhost
      · split at h <;> rename_i hval
        · simp only [Option.some.injEq, Identifier.Orcid.injEq] at h
          subst h
          exact hval
        · exact Option.noConfusion h
      · exact Option.noConfusion h

/-! ## DOI: invariants of recognized values and re-parsing -/

/-- A well-formed stored DOI: a prefix "10.<digits>" and a non-empty,
lower-case, newline-free suffix of Unicode scalar values. -/
def DoiGood (p suf : List Nat) : Prop :=
  (∃ ds, p = str "10." ++ ds ∧ ds ≠ [] ∧ ∀ c ∈ ds, isDigitN c = true) ∧
  suf ≠ [] ∧ suf.contains 10 = false ∧ toLowercase suf = suf ∧ ValidStr suf

theorem doi.construct_good {x p suf : List Nat} (hvx : ValidStr x)
    (h : doi.construct x = some (Identifier.Doi p suf)) : DoiGood p suf := by
  unfold doi.construct at h
  match hcap : doi.doiStrictCapture x with
  | none => rw [hcap] at h; exact Option.noConfusion h
  | some (p0, s0) =>
    rw [hcap] at h
    simp only [Option.some.injEq, Identifier.Doi.injEq] at h
    obtain ⟨hp, hs⟩ := h
    obtain ⟨hx, hds, hs0ne, hs0nl⟩ := doi.doiStrictCapture_eq hcap
    subst hp
    subst hs
    refine ⟨hds, ?_, ?_, toLowercase_idem s0, ?_⟩
    · cases s0 with
      | nil => exact absurd rfl hs0ne
      | cons a l => simp [toLowercase]
    · have hnm : (10:Nat) ∉ toLowercase s0 := by
        intro hm
        obtain ⟨c, hc, hlc⟩ := List.mem_map.mp hm
        rw [lowerN_eq_ten hlc] at hc
        exact absurd hc (by simpa using hs0nl)
      simpa using hnm
    · refine ValidStr_toLowercase (ValidStr_sub hvx fun c hc => ?_)
      rw [hx]
      exact List.mem_append_right _ (List.mem_cons_of_mem _ hc)

theorem doi.try_parse_good_doi {i : IdentifierParseInput} {p suf : List Nat}
    (hvr : ValidStr i.raw)
    (h : doi.try_parse i = some (Identifier.Doi p suf)) : DoiGood p suf := by
  simp only [doi.try_parse] at h
  split at h <;> rename_i hcap
  · exact doi.construct_good (ValidStr_toLowercase hvr) h
  · split at h <;> rename_i hre
    · split at h <;> rename_i decoded hdec
      · exact doi.construct_good (utf8Decode_valid hdec) h
      · exact Option.noConfusion h
    · exact Option.noConfusion h

theorem doi.capture_good {ds suf : List Nat} (hds : ds ≠ [])
    (hda : ∀ c ∈ ds, isDigitN c = true) (hsuf : suf ≠ [])
    (hnl : suf.contains 10 = false) :
    doi.doiStrictCapture ((str "10." ++ ds) ++ ch '/' :: suf) =
      some (str "10." ++ ds, suf) := by
  have hx : (str "10." ++ ds) ++ ch '/' :: suf =
      ch '1' :: ch '0' :: ch '.' :: (ds ++ ch '/' :: suf) := by
    simp [str, ch]
  rw [hx]
  have htw : (ds ++ ch '/' :: suf).takeWhile isDigitN = ds :=
    takeWhile_append_all _ hda (show isDigitN (ch '/') = false from by decide)
  simp only [doi.doiStrictCapture]
  rw [htw, List.drop_left]
  have hnm : (10:Nat) ∉ suf := by simpa using hnl
  simp [hds, hsuf, hnm, str, ch]

theorem doi.rematch_good {ds : List Nat} (w : List Nat) (hds : ds ≠ [])
    (hda : ∀ c ∈ ds, isDigitN c = true) :
    doi.doiReMatch ((str "10." ++ ds) ++ ch '/' :: w) = true := by
  have hx : (str "10." ++ ds) ++ ch '/' :: w =
      ch '1' :: ch '0' :: ch '.' :: (ds ++ ch '/' :: w) := by
    simp [str, ch]
  rw [hx]
  have htw : (ds ++ ch '/' :: w).takeWhile isDigitN = ds :=
    takeWhile_append_all _ hda (show isDigitN (ch '/') = false from by decide)
  simp only [doi.doiReMatch]
  rw [htw, List.drop_left]
  simp [hds, ch]

theorem doi.reparse_doi {p suf : List Nat} (hg : DoiGood p suf) :
    Identifier.parse
      (str "https://doi.org/" ++ p ++ [ch '/'] ++ doi.percent_encode_for_doi suf) =
      Identifier.Doi p suf := by
  obtain ⟨⟨ds, hp, hds, hda⟩, hsne, hsnl, hslc, hsv⟩ := hg
  have hdslc : toLowercase ds = ds := map_id_of_mem fun c hc => by
    have := hda c hc
    rw [isDigitN_iff] at this
    have hnotup : ¬ (isUpperN c = true) := by
      simp only [isUpperN, Bool.and_eq_true, decide_eq_true_eq]
      omega
    simp [lowerN, hnotup]
  have hplc : toLowercase p = p := by
    rw [hp, toLowercase_append, hdslc,
      show toLowercase (str "10.") = str "10." from by decide]
  have hlc : toLowercase (str "https://doi.org/" ++ p ++ [ch '/'] ++
      doi.percent_encode_for_doi suf) =
      str "https://doi.org/" ++ p ++ [ch '/'] ++
        toLowercase (doi.percent_encode_for_doi suf) := by
    rw [toLowercase_append, toLowercase_append, toLowercase_append, hplc,
      show toLowercase (str "https://doi.org/") = str "https://doi.org/" from by decide,
      show toLowercase [ch '/'] = [ch '/'] from by decide]
  have hcap : doi.doiStrictCapture (str "https://doi.org/" ++ p ++ [ch '/'] ++
      toLowercase (doi.percent_encode_for_doi suf)) = none := by
    simp [doi.doiStrictCapture, str, ch]
  have hstrip : doi.remove_doi_prefixes (str "https://doi.org/" ++ p ++ [ch '/'] ++
      toLowercase (doi.percent_encode_for_doi suf)) =
      p ++ ch '/' :: toLowercase (doi.percent_encode_for_doi suf) := by
    rw [hp]
    simp [doi.remove_doi_prefixes, doi.stripFirstAlt, doi.stripFirstHostAlt,
      doi.URI_PREFIXES_SCHEME, doi.URI_PREFIXES_HOST, doi.hostPat, doi.dropPat,
      dropLit, str, ch]
  have hre : doi.doiReMatch (p ++ ch '/' ::
      toLowercase (doi.percent_encode_for_doi suf)) = true := by
    rw [hp]
    exact doi.rematch_good _ hds hda
  have hbound : ∀ x ∈ p ++ [ch '/'], 46 ≤ x ∧ x ≤ 57 := by
    intro x hx
    rcases List.mem_append.mp hx with hxp | hx1
    · rw [hp] at hxp
      rcases List.mem_append.mp hxp with hx0 | hxds
      · have : x ∈ [49, 48, 46] := by simpa [str, ch] using hx0
        simp only [List.mem_cons, List.not_mem_nil, or_false] at this
        omega
      · have := hda x hxds
        rw [isDigitN_iff] at this
        omega
    · have hx47 : x = ch '/' := by simpa using hx1
      subst hx47
      decide
  have hdec : utf8Decode (percentDecodeBytes (utf8Encode
      (p ++ ch '/' :: toLowercase (doi.percent_encode_for_doi suf)))) =
      some (p ++ ch '/' :: suf) := by
    have h1 : p ++ ch '/' :: toLowercase (doi.percent_encode_for_doi suf) =
        (p ++ [ch '/']) ++ toLowercase (doi.percent_encode_for_doi suf) := by
      simp
    have he : utf8Encode (p ++ [ch '/']) = p ++ [ch '/'] :=
      utf8Encode_ascii fun x hx => by have := hbound x hx; omega
    rw [h1, utf8Encode_append, he,
      pdb_append_no37 _ (fun x hx => by have := hbound x hx; omega),
      pdb_enc_doi hslc hsv, ← he, ← utf8Encode_append,
      show (p ++ [ch '/']) ++ suf = p ++ ch '/' :: suf from by simp]
    refine utf8Encode_decode fun c hc => ?_
    rcases List.mem_append.mp hc with hcp | hcs
    · have := hbound c (List.mem_append_left _ hcp)
      left
      omega
    · rcases List.mem_cons.mp hcs with rfl | hcsuf
      · left
        decide
      · exact hsv c hcsuf
  have hcon : doi.construct (p ++ ch '/' :: suf) = some (Identifier.Doi p suf) := by
    unfold doi.construct
    rw [show p ++ ch '/' :: suf = (str "10." ++ ds) ++ ch '/' :: suf from by rw [hp]]
    rw [doi.capture_good hds hda hsne hsnl]
    rw [← hp]
    show some (Identifier.Doi p (toLowercase suf)) = some (Identifier.Doi p suf)
    rw [hslc]
  apply parse_eq_of_doi
  simp only [doi.try_parse, IdentifierParseInput.build]
  rw [hlc, hcap]
  simp only [Option.isSome_none, Bool.false_eq_true, if_false]
  rw [hstrip]
  simp only [hre, if_true]
  rw [hdec]
  exact hcon

/-- C1: for every input string s (of Unicode scalar values, the Rust `str`
invariant), parsing the stable string of the parsed identifier reproduces
it: `Identifier.parse((Identifier.parse s).to_stable_string()) ==
Identifier.parse s`, for every kind including the OpaqueString fallback. -/
theorem parse_stable_string_round_trip (s : List Nat) (hv : ValidStr s) :
    Identifier.parse ((Identifier.parse s).to_stable_string) =
      Identifier.parse s := by
  match hps : Identifier.parse s with
  | Identifier.Doi p suf =>
    have hraw : ValidStr (IdentifierParseInput.build s).raw := by
      simpa [IdentifierParseInput.build] using hv
    have hgood := doi.try_parse_good_doi hraw (parse_doi_inv hps)
    rw [show (Identifier.Doi p suf).to_stable_string =
      str "https://doi.org/" ++ p ++ [ch '/'] ++ doi.percent_encode_for_doi suf
      from rfl]
    exact doi.reparse_doi hgood
  | Identifier.Orcid v =>
    have hval := orcid.try_parse_some_inv_orcid (parse_orcid_inv hps)
    rw [show (Identifier.Orcid v).to_stable_string =
      str "https://orcid.org/" ++ v from rfl]
    exact orcid.reparse_orcid hval
  | Identifier.Ror v =>
    obtain ⟨hh, hpns, hval⟩ := ror.try_parse_some_inv_ror (parse_ror_inv hps)
    have hpq := path_no_slash_valid hpns
    rw [show (Identifier.Ror v).to_stable_string =
      str "https://ror.org/" ++ v from rfl]
    exact ror.reparse_ror hval hpq
  | Identifier.Uri v =>
    have hvs : v = s := parse_uri_value_eq hps
    rw [show (Identifier.Uri v).to_stable_string = v from rfl]
    subst hvs
    exact hps
  | Identifier.Str v =>
    obtain ⟨hvs, -, -, -, -, -⟩ := parse_str_inv hps
    rw [show (Identifier.Str v).to_stable_string = v from rfl]
    subst hvs
    exact hps
  | Identifier.Isbn v =>
    have hgood := isbn.try_parse_good_isbn (parse_isbn_inv hps)
    rw [show (Identifier.Isbn v).to_stable_string = v from rfl]
    exact isbn.reparse_isbn hgood

theorem parse_stable_string_round_trip_witness :
    ValidStr (str "https://doi.org/10.5555/ABC def") ∧
    Identifier.parse ((Identifier.parse
        (str "https://doi.org/10.5555/ABC def")).to_stable_string) =
      Identifier.parse (str "https://doi.org/10.5555/ABC def") :=
  ⟨by decide, parse_stable_string_round_trip _ (by decide)⟩

/-- C2: for every identifier produced by `Identifier.parse` on a string of
Unicode scalar values, if its `to_uri` is present then parsing that URI
reproduces the identifier. -/
theorem parse_to_uri_round_trip (s u : List Nat) (hv : ValidStr s)
    (h : (Identifier.parse s).to_uri = some u) :
    Identifier.parse u = Identifier.parse s := by
  match hps : Identifier.parse s with
  | Identifier.Doi p suf =>
    rw [hps, show (Identifier.Doi p suf).to_uri = some (str "https://doi.org/" ++
      p ++ [ch '/'] ++ doi.percent_encode_for_doi suf) from rfl,
      Option.some.injEq] at h
    subst h
    have hraw : ValidStr (IdentifierParseInput.build s).raw := by
      simpa [IdentifierParseInput.build] using hv
    exact doi.reparse_doi (doi.try_parse_good_doi hraw (parse_doi_inv hps))
  | Identifier.Orcid v =>
    rw [hps, show (Identifier.Orcid v).to_uri =
      some (str "https://orcid.org/" ++ v) from rfl, Option.some.injEq] at h
    subst h
    exact orcid.reparse_orcid (orcid.try_parse_some_inv_orcid (parse_orcid_inv hps))
  | Identifier.Ror v =>
    rw [hps, show (Identifier.Ror v).to_uri =
      some (str "https://ror.org/" ++ v) from rfl, Option.some.injEq] at h
    subst h
    obtain ⟨hh, hpns, hval⟩ := ror.try_parse_some_inv_ror (parse_ror_inv hps)
    exact ror.reparse_ror hval (path_no_slash_valid hpns)
  | Identifier.Uri v =>
    rw [hps, show (Identifier.Uri v).to_uri = some v from rfl,
      Option.some.injEq] at h
    subst h
    have hvs : v = s := parse_uri_value_eq hps
    subst hvs
    exact hps
  | Identifier.Str v =>
    rw [hps] at h
    exact Option.noConfusion h
  | Identifier.Isbn v =>
    rw [hps, show (Identifier.Isbn v).to_uri =
      some (str "urn:isbn:" ++ v) from rfl, Option.some.injEq] at h
    subst h
    exact isbn.reparse_urn (isbn.try_parse_good_isbn (parse_isbn_inv hps))

theorem parse_to_uri_round_trip_witness :
    ValidStr (str "https://doi.org/10.5555/ABC def") ∧
    (Identifier.parse (str "https://doi.org/10.5555/ABC def")).to_uri =
      some (str "https://doi.org/10.5555/abc%20def") ∧
    Identifier.parse (str "https://doi.org/10.5555/abc%20def") =
      Identifier.parse (str "https://doi.org/10.5555/ABC def") :=
  ⟨by decide, by decide, parse_to_uri_round_trip _ _ (by decide) (by decide)⟩
